import Mathlib

/-!
Shallow embedding of `src/vec_file.rs` (crate `vecfile`): a file-backed
dynamic array `VecFile<T>` with optional shadow (mirror) files.

Modelling conventions:
* The element codec (`Desse`) is an external capability.  The backing file is
  modelled slot-wise: `content : List α` holds the decoded value of each
  `width`-byte slot that exists in the file; the byte cursor `pos` is kept
  exactly (in bytes).  Every width-byte buffer decodes (Desse's
  `deserialize_from` is total), so a slot that was allocated by `set_len` but
  never written holds `zero`, the decode of the all-zero buffer.
* All u64 arithmetic is `Nat` with the explicit bound `U64MAX = 2^64 - 1`;
  `checked_mul` / `checked_add` failures are the explicit comparisons below.
  Unchecked u64 operations (`cap * 2` and `cap * element_size` in `expand`,
  `len + 1` in `try_push` / `try_insert`, `len + additional` in `reserve`,
  `len + slice.len()` in `try_extend_from_slice`) wrap in release builds and
  are embedded with an explicit `wrap` (`% 2^64`).
* Rust methods take `&mut self` (or mutate through `Cell`) and return
  `Result`; each is embedded as a function returning
  `Except Error β × VecFile α` — the state component is returned on the error
  paths too, because the source can mutate before failing.
* We model fault-free storage: `seek` / `write_all` / `set_len` on a live
  handle succeed, `read` past end-of-file yields a short read (which
  `de_from` rejects as `InequalSizeForDe`), matching local-file semantics.
-/

namespace Vecfile

/-- `std::u64::MAX`. -/
def U64MAX : Nat := 2 ^ 64 - 1

/-- u64 arithmetic in release builds wraps modulo `2^64`; every `+` / `*`
on `len`, `cap` or a byte size in the source is embedded through `wrap`.
(In debug builds the same operations panic on overflow.) -/
def wrap (n : Nat) : Nat := n % 2 ^ 64

/-- The error enum of `vec_file.rs`. -/
inductive Error where
  | OutOfRange (index len : Nat)
  | IndexExceedsMaxU64
  | PopOnEmpty
  | PushOnFull
  | LenExceedsUsize (len : Nat)
  | InequalSizeForDe (given required : Nat)
  | RWTestFailedNotEqual
  | IrrecoverableState
deriving DecidableEq, Repr

/-- One backing file handle: the decoded content of its slots and its byte
cursor (the seek position). -/
structure FState (α : Type) where
  content : List α
  pos : Nat
deriving DecidableEq, Repr

/-- The `VecFile<T>` descriptor.  `width` is `element_size()`
(`size_of::<<T as Desse>::Output>()`) and `zero` is the decode of a zeroed
slot; both come from the codec for `T` and never change. -/
structure VecFile (α : Type) where
  width : Nat
  zero : α
  file : FState α
  shadows : List (FState α)
  len : Nat
  cap : Nat
deriving DecidableEq, Repr

/-- `file.seek(SeekFrom::Start(p))`. -/
def FState.seekTo {α : Type} (f : FState α) (p : Nat) : FState α :=
  { f with pos := p }

/-- Pad `l` with `z` so that index `i` exists, then overwrite index `i` with
`v` (a file write beyond end-of-file zero-extends the file first). -/
def listSetPad {α : Type} (l : List α) (i : Nat) (z v : α) : List α :=
  (l ++ List.replicate (i + 1 - l.length) z).set i v

/-- `write_all` of one encoded element at the current cursor: overwrites the
slot under the cursor and advances the cursor by `width` bytes. -/
def FState.writeSlot {α : Type} (f : FState α) (w : Nat) (z v : α) : FState α :=
  { content := listSetPad f.content (f.pos / w) z v, pos := f.pos + w }

/-- `take(width).read_to_end` + `de_from` at the current cursor.  Reading past
end-of-file returns fewer than `width` bytes and `de_from` rejects the short
buffer (`InequalSizeForDe`); the cursor does not move in that case. -/
def FState.readSlot {α : Type} (f : FState α) (w : Nat) : Except Error α × FState α :=
  match f.content.get? (f.pos / w) with
  | some v => (.ok v, { f with pos := f.pos + w })
  | none => (.error (.InequalSizeForDe 0 w), f)

/-- `set_len` to `n` slots (`n * width` bytes): truncates or zero-extends the
file; the cursor is unchanged. -/
def FState.setLenSlots {α : Type} (f : FState α) (n : Nat) (z : α) : FState α :=
  { f with content := f.content.take n ++ List.replicate (n - f.content.length) z }

/-- `VecFile::calc_index`: `index.checked_mul(width)` then
`start.checked_add(width - 1)` (result of the addition discarded), each
`None` mapped to `IndexExceedsMaxU64`. -/
def calc_index (width index : Nat) : Except Error Nat :=
  if index * width > U64MAX then .error .IndexExceedsMaxU64
  else if index * width + (width - 1) > U64MAX then .error .IndexExceedsMaxU64
  else .ok (index * width)

namespace VecFile

variable {α : Type}

/-- `VecFile::element_size`. -/
def element_size (vf : VecFile α) : Nat := vf.width

/-- `VecFile::bounds_check`: `index < len`. -/
def bounds_check (vf : VecFile α) (index : Nat) : Bool := index < vf.len

/-- `VecFile::capacity_check`: `index < cap`. -/
def capacity_check (vf : VecFile α) (index : Nat) : Bool := index < vf.cap

/-- `VecFile::new` / `Default::default` / `new_with_path`: a fresh (or
truncated) empty backing file, no shadows, `len = 0`, `cap = 8`.  The checked
constructors all produce exactly these fields. -/
def mkNew (width : Nat) (zero : α) : VecFile α :=
  { width, zero, file := { content := [], pos := 0 }, shadows := [], len := 0, cap := 8 }

/-- `VecFile::from_raw_parts` (the unchecked reconstruction). -/
def from_raw_parts (width : Nat) (zero : α) (file : FState α) (len cap : Nat) : VecFile α :=
  { width, zero, file, shadows := [], len, cap }

/-- `VecFile::reset_seek_to_len`: seek the primary to `calc_index(len)`. -/
def reset_seek_to_len (vf : VecFile α) : Except Error Unit × VecFile α :=
  match calc_index vf.width vf.len with
  | .ok off => (.ok (), { vf with file := vf.file.seekTo off })
  | .error e => (.error e, vf)

/-- `VecFile::try_get`. -/
def try_get (vf : VecFile α) (index : Nat) : Except Error α × VecFile α :=
  if ¬ vf.bounds_check index then (.error (.OutOfRange index vf.len), vf)
  else
    match calc_index vf.width index with
    | .error e => (.error e, vf)
    | .ok off =>
      match (vf.file.seekTo off).readSlot vf.width with
      | (.error e, f2) => (.error e, { vf with file := f2 })
      | (.ok v, f2) =>
        match reset_seek_to_len { vf with file := f2 } with
        | (.error e, vf3) => (.error e, vf3)
        | (.ok _, vf3) => (.ok v, vf3)

/-- `VecFile::write_at_curr_seek` (fault-free): write the encoded element to
the primary at the primary's cursor, then the same bytes to every shadow at
that shadow's own cursor (the source performs no shadow seek here). -/
def write_at_curr_seek (vf : VecFile α) (v : α) : VecFile α :=
  { vf with file := vf.file.writeSlot vf.width vf.zero v,
            shadows := vf.shadows.map (fun s => s.writeSlot vf.width vf.zero v) }

/-- `VecFile::try_set`. -/
def try_set (vf : VecFile α) (index : Nat) (v : α) : Except Error Unit × VecFile α :=
  if ¬ vf.bounds_check index then (.error (.OutOfRange index vf.len), vf)
  else
    match calc_index vf.width index with
    | .error e => (.error e, vf)
    | .ok off =>
      reset_seek_to_len (({ vf with file := vf.file.seekTo off }).write_at_curr_seek v)

/-- `VecFile::expand` (fault-free): `self.cap = self.cap * 2` (u64,
wrapping), then `set_len` the primary and every shadow to
`new_file_size = cap * element_size` bytes (again a wrapping u64 product).
The file then holds `new_file_size / width` full slots; a partial trailing
slot (possible only after a wrap) is unreadable, like any missing slot. -/
def expand (vf : VecFile α) : VecFile α :=
  { vf with cap := wrap (vf.cap * 2),
            file := vf.file.setLenSlots (wrap (wrap (vf.cap * 2) * vf.width) / vf.width) vf.zero,
            shadows := vf.shadows.map (fun s =>
              s.setLenSlots (wrap (wrap (vf.cap * 2) * vf.width) / vf.width) vf.zero) }

/-- `VecFile::expand_if_needed`. -/
def expand_if_needed (vf : VecFile α) : VecFile α :=
  if vf.len = vf.cap then vf.expand else vf

/-- `VecFile::try_push`: any `calc_index(len)` failure is reported as
`PushOnFull`. -/
def try_push (vf : VecFile α) (v : α) : Except Error Unit × VecFile α :=
  match calc_index vf.width vf.len with
  | .ok _ =>
    let vf1 := vf.expand_if_needed
    let vf2 := vf1.write_at_curr_seek v
    (.ok (), { vf2 with len := wrap (vf2.len + 1) })
  | .error _ => (.error .PushOnFull, vf)

/-- `VecFile::try_pop`: seek one element back from the cursor, read it, seek
one element back again, decrement `len`.  (`SeekFrom::Current(-width)` is
`Nat` subtraction here; a cursor below `width` with `len > 0` is not
reachable through the checked constructors.) -/
def try_pop (vf : VecFile α) : Except Error α × VecFile α :=
  if vf.len > 0 then
    match (vf.file.seekTo (vf.file.pos - vf.width)).readSlot vf.width with
    | (.error e, f2) => (.error e, { vf with file := f2 })
    | (.ok v, f2) =>
      (.ok v, { vf with file := f2.seekTo (f2.pos - vf.width), len := vf.len - 1 })
  else (.error .PopOnEmpty, vf)

/-- The `while self.cap < target { self.expand()?; }` loop shared by
`resize`, `resize_with` and `reserve` (fault-free), with explicit fuel.
With wrapping, `cap` doubles into `0` after at most 64 steps
(`c * 2^64 ≡ 0 [MOD 2^64]`); from then on the source re-runs `expand` on an
unchanged state (`cap = 0`, `set_len(0)`) forever.  The `0 < vf.cap` guard
stops the model at exactly that fixed point, so 65 guard checks reach the
loop's exit (or its diverging fixed-point state) from every start: the model
and the source agree on every terminating run, and a `cap = 0` result marks
a run on which the source never returns. -/
def expandUntilAux : Nat → VecFile α → Nat → VecFile α
  | 0, vf, _ => vf
  | n + 1, vf, target =>
    if vf.cap < target ∧ 0 < vf.cap then expandUntilAux n vf.expand target else vf

/-- The expansion loop entry point (see `expandUntilAux`). -/
def expandUntil (vf : VecFile α) (target : Nat) : VecFile α :=
  expandUntilAux 65 vf target

/-- The `while self.len() < new_len { self.write_at_curr_seek(value)?;
self.len = self.len + 1; }` fill loop of `resize`. -/
def resizeFill (vf : VecFile α) (new_len : Nat) (v : α) : VecFile α :=
  if vf.len < new_len then
    resizeFill { vf.write_at_curr_seek v with len := vf.len + 1 } new_len v
  else vf
termination_by new_len - vf.len
decreasing_by omega

/-- `VecFile::resize` (fault-free). -/
def resize (vf : VecFile α) (new_len : Nat) (v : α) : Except Error Unit × VecFile α :=
  let vf1 := if new_len > vf.len then (vf.expandUntil new_len).resizeFill new_len v else vf
  (.ok (), { vf1 with len := new_len })

/-- The fill loop of `resize_with`; `k` counts the calls to the generator
`f`, whose successive results are modelled by `g 0, g 1, ...`. -/
def resizeFillWith (vf : VecFile α) (new_len : Nat) (g : Nat → α) (k : Nat) : VecFile α :=
  if vf.len < new_len then
    resizeFillWith { vf.write_at_curr_seek (g k) with len := vf.len + 1 } new_len g (k + 1)
  else vf
termination_by new_len - vf.len
decreasing_by omega

/-- `VecFile::resize_with` (fault-free). -/
def resize_with (vf : VecFile α) (new_len : Nat) (g : Nat → α) : Except Error Unit × VecFile α :=
  let vf1 := if new_len > vf.len then (vf.expandUntil new_len).resizeFillWith new_len g 0 else vf
  (.ok (), { vf1 with len := new_len })

/-- `VecFile::reserve` (fault-free): `needed_cap = self.len + additional` is
a wrapping u64 sum. -/
def reserve (vf : VecFile α) (additional : Nat) : Except Error Unit × VecFile α :=
  (.ok (), vf.expandUntil (wrap (vf.len + additional)))

/-- The `for e in slice { self.write_at_curr_seek(&e).unwrap(); }` loop. -/
def writeAll (vf : VecFile α) (items : List α) : VecFile α :=
  items.foldl (fun acc v => acc.write_at_curr_seek v) vf

/-- `VecFile::try_extend_from_slice` (fault-free): `self.len + slice.len()`
is a wrapping u64 sum, both in the `calc_index` guard and in the `len`
assignment. -/
def try_extend_from_slice (vf : VecFile α) (slice : List α) : Except Error Unit × VecFile α :=
  match calc_index vf.width (wrap (vf.len + slice.length)) with
  | .error e => (.error e, vf)
  | .ok _ =>
    (.ok (), ({ (vf.reserve slice.length).2 with
        len := wrap ((vf.reserve slice.length).2.len + slice.length) }).writeAll slice)

/-- `VecFile::truncate`. -/
def truncate (vf : VecFile α) (new_len : Nat) : VecFile α :=
  if vf.len > new_len then { vf with len := new_len } else vf

/-- One step of `try_insert`'s right-shift loop:
`let curr = self.try_get(i - 1)?; self.try_set(i, &curr)?;`.
For `i = 0` the source's `i - 1` underflows `u64`; in release builds it wraps
to `u64::MAX`, which is what the model computes. -/
def shiftRightStep (vf : VecFile α) (i : Nat) : Except Error Unit × VecFile α :=
  match vf.try_get (if i = 0 then U64MAX else i - 1) with
  | (.error e, vf1) => (.error e, vf1)
  | (.ok curr, vf1) => vf1.try_set i curr

/-- `for i in (index..self.len).rev() { ... }` of `try_insert`, driven over
the explicit (already reversed) index list. -/
def shiftRightLoop (vf : VecFile α) (idxs : List Nat) : Except Error Unit × VecFile α :=
  match idxs with
  | [] => (.ok (), vf)
  | i :: rest =>
    match vf.shiftRightStep i with
    | (.error e, vf1) => (.error e, vf1)
    | (.ok _, vf1) => vf1.shiftRightLoop rest

end VecFile

/-- The Rust iterator `(a..b).rev()` as a list. -/
def revRange (a b : Nat) : List Nat := (List.range' a (b - a)).reverse

namespace VecFile

variable {α : Type}

/-- The statement `self.len = new_len` (used by `try_insert` before its
shift loop). -/
def withLen (vf : VecFile α) (n : Nat) : VecFile α := { vf with len := n }

/-- `VecFile::try_insert`.  Note the guard is `bounds_check` (`index < len`),
and the trailing `self.set(index, element)` is the panicking wrapper: its
`Err` stands in for the panic. -/
def try_insert (vf : VecFile α) (index : Nat) (v : α) : Except Error Unit × VecFile α :=
  if ¬ vf.bounds_check index then (.error (.OutOfRange index vf.len), vf)
  else
    match (vf.expand_if_needed.withLen (wrap (vf.expand_if_needed.len + 1))).shiftRightLoop
        (revRange index (wrap (vf.expand_if_needed.len + 1))) with
    | (.error e, vf3) => (.error e, vf3)
    | (.ok _, vf3) => vf3.try_set index v

/-- `for i in index..(self.len - 1) { let curr = self.try_get(i + 1)?;
self.try_set(i, &curr)?; }` of `try_remove`. -/
def shiftLeftLoop (vf : VecFile α) (idxs : List Nat) : Except Error Unit × VecFile α :=
  match idxs with
  | [] => (.ok (), vf)
  | i :: rest =>
    match vf.try_get (i + 1) with
    | (.error e, vf1) => (.error e, vf1)
    | (.ok curr, vf1) =>
      match vf1.try_set i curr with
      | (.error e, vf2) => (.error e, vf2)
      | (.ok _, vf2) => vf2.shiftLeftLoop rest

/-- `VecFile::try_remove`. -/
def try_remove (vf : VecFile α) (index : Nat) : Except Error α × VecFile α :=
  if ¬ vf.bounds_check index then (.error (.OutOfRange index vf.len), vf)
  else
    match vf.try_get index with
    | (.error e, vf1) => (.error e, vf1)
    | (.ok ret, vf1) =>
      match vf1.shiftLeftLoop (List.range' index (vf1.len - 1 - index)) with
      | (.error e, vf2) => (.error e, vf2)
      | (.ok _, vf2) => (.ok ret, { vf2 with len := vf2.len - 1 })

/-- `VecFile::new_shadow`, fault-free: a fresh store `set_len`'d to
`cap * width` bytes, the primary's bytes copied over its front, left seek'd
to slot `len` (`shadow.seek(calc_index(len))` at the end of the source). -/
def new_shadow_file (vf : VecFile α) : FState α :=
  { content := vf.file.content ++ List.replicate (vf.cap - vf.file.content.length) vf.zero,
    pos := vf.len * vf.width }

/-- `VecFile::add_shadows` (fault-free I/O): each iteration builds one new
shadow; `new_shadow` ends with `reset_seek_to_len` on the primary, whose
`calc_index(len)` failure propagates. -/
def add_shadows (vf : VecFile α) (n : Nat) : Except Error Unit × VecFile α :=
  match n with
  | 0 => (.ok (), vf)
  | m + 1 =>
    match calc_index vf.width vf.len with
    | .error e => (.error e, vf)
    | .ok off =>
      let s := vf.new_shadow_file
      let vf1 := { vf with file := vf.file.seekTo off, shadows := vf.shadows ++ [s] }
      vf1.add_shadows m

/-- `VecFile::remove_shadows`: pop the last `n` shadows. -/
def remove_shadows (vf : VecFile α) (n : Nat) : VecFile α :=
  { vf with shadows := vf.shadows.take (vf.shadows.length - n) }

/-- `VecFile::clear_shadows`. -/
def clear_shadows (vf : VecFile α) : VecFile α :=
  { vf with shadows := [] }

end VecFile

/-- The value computed by `self.into_iter().zip(other.into_iter()).all(..)`
where `self` iterates the slots of `f` starting at slot `i` with `r` elements
remaining and `other` is an in-memory sequence.  `zip` pulls from `self`
first, so one `self` read can happen even when `other` is exhausted; a `self`
read of a missing slot is the iterator's `unwrap` panic, modelled as `none`.
`all` short-circuits on the first mismatch. -/
def eqListLoop {α : Type} [DecidableEq α] (f : FState α) :
    List α → Nat → Nat → Option Bool
  | _, _, 0 => some true
  | other, i, r + 1 =>
    match f.content.get? i with
    | none => none
    | some e =>
      match other with
      | [] => some true
      | o :: rest => if e = o then eqListLoop f rest (i + 1) r else some false

/-- `impl PartialEq<U> for VecFile<T>` (a `VecFile` against an in-memory
sequence): prefix comparison of the iterator against the list. -/
def vecfile_eq_list {α : Type} [DecidableEq α] (vf : VecFile α) (other : List α) : Option Bool :=
  eqListLoop vf.file other 0 vf.len

/-- `zip`/`all` over two slot iterators (used by `PartialEq for VecFile` and
by `confirm_shadow_equivalence`): `a`, `b` are the elements remaining in each
iterator, reads start at slot `i` of both files. -/
def eqVFLoop {α : Type} [DecidableEq α] (f1 f2 : FState α) :
    Nat → Nat → Nat → Option Bool
  | _, 0, _ => some true
  | i, a + 1, b =>
    match f1.content.get? i with
    | none => none
    | some e1 =>
      match b with
      | 0 => some true
      | b' + 1 =>
        match f2.content.get? i with
        | none => none
        | some e2 => if e1 = e2 then eqVFLoop f1 f2 (i + 1) a b' else some false

/-- `impl PartialEq for VecFile<T>` (two `VecFile`s). -/
def vecfile_eq_vecfile {α : Type} [DecidableEq α] (v1 v2 : VecFile α) : Option Bool :=
  eqVFLoop v1.file v2.file 0 v1.len v2.len

/-- The `for i in 0..shadows.len() - 1` pairwise comparison of
`confirm_shadow_equivalence`; each pair of consecutive shadows is iterated as
a `VecFile` of the same `len`.  `none` is an iterator panic; `some false` is
the early `return Ok(false)`. -/
def confirmPairs {α : Type} [DecidableEq α] (shadows : List (FState α)) (len : Nat) : Option Bool :=
  match shadows with
  | s1 :: s2 :: rest =>
    match eqVFLoop s1 s2 0 len len with
    | none => none
    | some false => some false
    | some true => confirmPairs (s2 :: rest) len
  | _ => some true

/-- The value returned by `VecFile::confirm_shadow_equivalence` (fault-free
reads).  `none` models a panic: the unconditional `shadows[0]` indexes an
empty `Vec` when no shadows are configured, and iterator reads `unwrap`.
The trailing `self.reset_seek_to_len()?` can surface `calc_index`'s error.
Cursor side effects are not part of this value-level model. -/
def confirm_shadow_equivalence {α : Type} [DecidableEq α] (vf : VecFile α) :
    Option (Except Error Bool) :=
  match confirmPairs vf.shadows vf.len with
  | none => none
  | some false => some (.ok false)
  | some true =>
    match vf.shadows.get? 0 with
    | none => none
    | some s0 =>
      match eqVFLoop vf.file s0 0 vf.len vf.len with
      | none => none
      | some b =>
        match calc_index vf.width vf.len with
        | .error e => some (.error e)
        | .ok _ => some (.ok b)

/-- One public operation applied to an instance (the claim-relevant mutating
surface; the remaining public methods — `try_clone`, `to_named_file`,
`confirm_shadow_equivalence`, the accessors — never change `len` or `cap`). -/
inductive Op (α : Type) where
  | get (index : Nat)
  | set (index : Nat) (v : α)
  | push (v : α)
  | pop
  | insert (index : Nat) (v : α)
  | remove (index : Nat)
  | resize (new_len : Nat) (v : α)
  | resizeWith (new_len : Nat) (g : Nat → α)
  | reserve (n : Nat)
  | extendFromSlice (items : List α)
  | truncate (new_len : Nat)
  | addShadows (n : Nat)
  | removeShadows (n : Nat)
  | clearShadows

/-- Run one public operation, keeping the resulting state whether or not the
operation reported an error. -/
def step {α : Type} (vf : VecFile α) (op : Op α) : VecFile α :=
  match op with
  | .get i => (vf.try_get i).2
  | .set i v => (vf.try_set i v).2
  | .push v => (vf.try_push v).2
  | .pop => vf.try_pop.2
  | .insert i v => (vf.try_insert i v).2
  | .remove i => (vf.try_remove i).2
  | .resize n v => (vf.resize n v).2
  | .resizeWith n g => (vf.resize_with n g).2
  | .reserve n => (vf.reserve n).2
  | .extendFromSlice l => (vf.try_extend_from_slice l).2
  | .truncate n => vf.truncate n
  | .addShadows n => (vf.add_shadows n).2
  | .removeShadows n => vf.remove_shadows n
  | .clearShadows => vf.clear_shadows

/-- Apply a sequence of public operations. -/
def runOps {α : Type} (vf : VecFile α) (ops : List (Op α)) : VecFile α :=
  ops.foldl step vf

/-- `push` each element of `vs` in order, stopping at the first error. -/
def pushAll {α : Type} (vf : VecFile α) (vs : List α) : Except Error Unit × VecFile α :=
  match vs with
  | [] => (.ok (), vf)
  | v :: rest =>
    match vf.try_push v with
    | (.ok _, vf1) => pushAll vf1 rest
    | (.error e, vf1) => (.error e, vf1)

/-- `pop` `n` times, collecting the popped values in order. -/
def popN {α : Type} (vf : VecFile α) (n : Nat) : Except Error (List α) × VecFile α :=
  match n with
  | 0 => (.ok [], vf)
  | m + 1 =>
    match vf.try_pop with
    | (.error e, vf1) => (.error e, vf1)
    | (.ok v, vf1) =>
      match popN vf1 m with
      | (.ok vs, vf2) => (.ok (v :: vs), vf2)
      | (.error e, vf2) => (.error e, vf2)

/-- Decidable equality on `Except`, so that concrete runs of the model can be
checked by `decide`. -/
instance {ε β : Type} [DecidableEq ε] [DecidableEq β] : DecidableEq (Except ε β) := fun x y =>
  match x, y with
  | .ok a, .ok b =>
    if h : a = b then .isTrue (by rw [h]) else .isFalse (fun hh => h (Except.ok.inj hh))
  | .error a, .error b =>
    if h : a = b then .isTrue (by rw [h]) else .isFalse (fun hh => h (Except.error.inj hh))
  | .ok _, .error _ => .isFalse (fun hh => nomatch hh)
  | .error _, .ok _ => .isFalse (fun hh => nomatch hh)

/-! ### Sample states used by concrete theorems -/

/-- The state reached by pushing `5` onto a fresh `VecFile` of width 2:
one element, cursor at byte 2. -/
def sample1 : VecFile Nat := ((VecFile.mkNew 2 0).try_push 5).2

/-! ### Claim theorems -/

/-- **C1** (evidence of the code bug).  `try_insert` guards with
`bounds_check` (`index < len`), so `index == len` — which the claim and the
method's own documentation ("error if index > self.len") say must succeed —
is always rejected with `OutOfRange`, for every instance.  Moreover at
`index = 0` on a non-empty instance (here `sample1`, one element) the shift
loop's `i - 1` underflows u64: the call fails with
`OutOfRange(u64::MAX, 2)` after already corrupting the state
(`len` incremented to 2). -/
theorem c1_insert_bounds_bug :
    (∀ (α : Type) (vf : VecFile α) (v : α),
      vf.try_insert vf.len v = (.error (.OutOfRange vf.len vf.len), vf))
    ∧ sample1.try_insert 0 7 =
        (.error (.OutOfRange U64MAX 2),
         { width := 2, zero := 0, file := { content := [5, 5], pos := 4 },
           shadows := [], len := 2, cap := 8 }) := by
  constructor
  · intro α vf v
    simp [VecFile.try_insert, VecFile.bounds_check]
  · decide

/-- **C2** (evidence of the code bug).  The source's own invariant note says
every public method must leave the cursor at slot `len`, but `truncate` and
`try_remove` never re-seek: starting from `sample1` (one element of width 2,
cursor at byte 2), `truncate(0)` and `remove(0)` both leave the cursor at
byte 2 while `len * width` is 0. -/
theorem c2_cursor_not_reset :
    (sample1.truncate 0).file.pos = 2
    ∧ (sample1.truncate 0).len * (sample1.truncate 0).width = 0
    ∧ (sample1.try_remove 0).2.file.pos = 2
    ∧ (sample1.try_remove 0).2.len * (sample1.try_remove 0).2.width = 0 := by
  decide

/-- **C7**: `try_pop` on an instance with `len = 0` fails with `PopOnEmpty`
and returns the state completely unchanged (same `len`, `cap`, cursor,
primary and shadow contents). -/
theorem c7_pop_on_empty (α : Type) (vf : VecFile α) (h : vf.len = 0) :
    vf.try_pop = (.error .PopOnEmpty, vf) := by
  simp [VecFile.try_pop, h]

theorem c7_pop_on_empty_witness :
    (VecFile.mkNew 4 (0 : Nat)).len = 0
    ∧ (VecFile.mkNew 4 (0 : Nat)).try_pop = (.error .PopOnEmpty, VecFile.mkNew 4 0) :=
  ⟨rfl, c7_pop_on_empty Nat (VecFile.mkNew 4 0) rfl⟩

/-- **C9**: a shrinking `resize` (`new_len ≤ len`) and a shrinking `truncate`
(`new_len < len`) set `len` and change nothing else (capacity, cursor,
every byte of the primary and of every shadow are untouched), and `truncate`
with `new_len ≥ len` is a complete no-op. -/
theorem c9_shrink_frame (α : Type) (vf : VecFile α) (n : Nat) (v : α) :
    (n ≤ vf.len → vf.resize n v = (.ok (), { vf with len := n }))
    ∧ (n < vf.len → vf.truncate n = { vf with len := n })
    ∧ (vf.len ≤ n → vf.truncate n = vf) := by
  refine ⟨fun h => ?_, fun h => ?_, fun h => ?_⟩
  · simp [VecFile.resize, Nat.not_lt.mpr h]
  · simp [VecFile.truncate, h]
  · simp [VecFile.truncate, Nat.not_lt.mpr h]

theorem c9_shrink_frame_witness :
    sample1.resize 0 9 = (.ok (), { sample1 with len := 0 })
    ∧ sample1.truncate 0 = { sample1 with len := 0 }
    ∧ sample1.truncate 3 = sample1 :=
  ⟨(c9_shrink_frame Nat sample1 0 9).1 (by decide),
   (c9_shrink_frame Nat sample1 0 9).2.1 (by decide),
   (c9_shrink_frame Nat sample1 3 9).2.2 (by decide)⟩

/-- **C10**: with an empty shadow set `confirm_shadow_equivalence` never
returns a value (it unconditionally indexes `shadows[0]`, a panic), and
consequently it can return `Ok` only when at least one shadow is
configured. -/
theorem c10_confirm_needs_shadow (α : Type) [DecidableEq α] (vf : VecFile α) :
    (vf.shadows = [] → confirm_shadow_equivalence vf = none)
    ∧ (∀ b, confirm_shadow_equivalence vf = some (.ok b) → vf.shadows ≠ []) := by
  constructor
  · intro h
    simp [confirm_shadow_equivalence, confirmPairs, h]
  · intro b hb hempty
    simp [confirm_shadow_equivalence, confirmPairs, hempty] at hb

theorem c10_confirm_needs_shadow_witness :
    (VecFile.mkNew 4 (0 : Nat)).shadows = []
    ∧ confirm_shadow_equivalence (VecFile.mkNew 4 (0 : Nat)) = none :=
  ⟨rfl, (c10_confirm_needs_shadow Nat (VecFile.mkNew 4 0)).1 rfl⟩

/-- **C8**: for any positive width, `calc_index` fails with
`IndexExceedsMaxU64` exactly when `index * width` or
`index * width + (width - 1)` exceeds `u64::MAX`; and whenever
`calc_index` rejects an index, `try_get` and `try_set` return an error with
the state untouched — no I/O is performed. -/
theorem c8_index_overflow_rejected :
    (∀ (w idx : Nat), 1 ≤ w →
      (calc_index w idx = .error .IndexExceedsMaxU64 ↔
        U64MAX < idx * w ∨ U64MAX < idx * w + (w - 1)))
    ∧ (∀ (α : Type) (vf : VecFile α) (i : Nat),
        calc_index vf.width i = .error .IndexExceedsMaxU64 →
        (∃ e, vf.try_get i = (.error e, vf)) ∧ ∀ v, ∃ e, vf.try_set i v = (.error e, vf)) := by
  constructor
  · intro w idx _
    unfold calc_index
    split_ifs with h1 h2 <;> simp_all
  · intro α vf i h
    by_cases hb : vf.bounds_check i
    · exact ⟨⟨.IndexExceedsMaxU64, by simp [VecFile.try_get, hb, h]⟩,
        fun v => ⟨.IndexExceedsMaxU64, by simp [VecFile.try_set, hb, h]⟩⟩
    · exact ⟨⟨.OutOfRange i vf.len, by simp [VecFile.try_get, hb]⟩,
        fun v => ⟨.OutOfRange i vf.len, by simp [VecFile.try_set, hb]⟩⟩

theorem c8_index_overflow_rejected_witness :
    calc_index 8 (2 ^ 61) = .error .IndexExceedsMaxU64
    ∧ (U64MAX < 2 ^ 61 * 8 ∨ U64MAX < 2 ^ 61 * 8 + 7)
    ∧ (∃ e, (VecFile.mkNew 8 (0 : Nat)).try_get (2 ^ 61)
          = (.error e, VecFile.mkNew 8 0)) :=
  ⟨by decide,
   (c8_index_overflow_rejected.1 8 (2 ^ 61) (by norm_num)).mp (by decide),
   (c8_index_overflow_rejected.2 Nat (VecFile.mkNew 8 0) (2 ^ 61) (by decide)).1⟩

/-! ### Helper lemmas: slot writes, `set_len`, `calc_index` -/

theorem listSetPad_get_self {α : Type} (l : List α) (i : Nat) (z v : α) :
    (listSetPad l i z v).get? i = some v := by
  have h : i < (l ++ List.replicate (i + 1 - l.length) z).length := by
    simp
    omega
  rw [listSetPad, List.get?_eq_getElem?, List.getElem?_set_eq_of_lt _ h]

theorem listSetPad_get_ne {α : Type} (l : List α) (i j : Nat) (z v x : α) (hne : j ≠ i)
    (hj : l.get? j = some x) : (listSetPad l i z v).get? j = some x := by
  have hjl : j < l.length := by
    by_contra hc
    rw [List.get?_eq_none.mpr (by omega)] at hj
    exact Option.noConfusion hj
  rw [listSetPad, List.get?_eq_getElem?, List.getElem?_set_ne (fun h => hne h.symm),
    List.getElem?_append, if_pos hjl, ← List.get?_eq_getElem?]
  exact hj

theorem listSetPad_length {α : Type} (l : List α) (i : Nat) (z v : α) :
    (listSetPad l i z v).length = max l.length (i + 1) := by
  simp [listSetPad]
  omega

theorem setLenSlots_length {α : Type} (f : FState α) (n : Nat) (z : α) :
    (f.setLenSlots n z).content.length = n := by
  simp [FState.setLenSlots]
  omega

theorem setLenSlots_get {α : Type} (f : FState α) (n : Nat) (z : α) (j : Nat) (x : α)
    (hj : f.content.get? j = some x) (hn : f.content.length ≤ n) :
    (f.setLenSlots n z).content.get? j = some x := by
  have hjl : j < f.content.length := by
    by_contra hc
    rw [List.get?_eq_none.mpr (by omega)] at hj
    exact Option.noConfusion hj
  rw [FState.setLenSlots, List.get?_eq_getElem?, List.getElem?_append,
    if_pos (by rw [List.length_take]; omega), List.getElem?_take, if_pos (by omega),
    ← List.get?_eq_getElem?]
  exact hj

theorem wrap_eq {n : Nat} (h : n < 2 ^ 64) : wrap n = n := Nat.mod_eq_of_lt h

/-- `calc_index` succeeds exactly on indices whose slot fits the u64 address
space: `(idx + 1) * width ≤ 2^64` (with `width ≥ 1`). -/
theorem calc_index_ok (w idx : Nat) (hw : 1 ≤ w) (h : (idx + 1) * w ≤ 2 ^ 64) :
    calc_index w idx = .ok (idx * w) := by
  have h1 : idx * w + w ≤ 2 ^ 64 := by
    rw [Nat.succ_mul] at h
    omega
  unfold calc_index U64MAX
  rw [if_neg (by omega), if_neg (by omega)]

/-- Closed form of a successful `try_set`: the slot is overwritten in the
primary, each shadow gets the element at its own cursor, and the primary
cursor ends at slot `len`. -/
theorem try_set_spec {α : Type} (vf : VecFile α) (i : Nat) (v : α) (hw : 1 ≤ vf.width)
    (hi : i < vf.len) (hb : (vf.len + 1) * vf.width ≤ 2 ^ 64) :
    vf.try_set i v =
      (.ok (), { vf with
        file := { content := listSetPad vf.file.content i vf.zero v,
                  pos := vf.len * vf.width },
        shadows := vf.shadows.map (fun s => s.writeSlot vf.width vf.zero v) }) := by
  have hbc : vf.bounds_check i = true := by simpa [VecFile.bounds_check] using hi
  have hci := calc_index_ok vf.width i hw
    (le_trans (Nat.mul_le_mul_right _ (by omega)) hb)
  have hcl := calc_index_ok vf.width vf.len hw hb
  have hdiv : i * vf.width / vf.width = i := Nat.mul_div_cancel i (by omega)
  simp [VecFile.try_set, hbc, hci, VecFile.write_at_curr_seek, FState.writeSlot,
    FState.seekTo, VecFile.reset_seek_to_len, hcl, hdiv]

/-- Closed form of a successful `try_get` of a present slot: the value is
returned, the content is untouched, and the cursor ends at slot `len`. -/
theorem try_get_found {α : Type} (vf : VecFile α) (i : Nat) (x : α) (hw : 1 ≤ vf.width)
    (hi : i < vf.len) (hb : (vf.len + 1) * vf.width ≤ 2 ^ 64)
    (hx : vf.file.content.get? i = some x) :
    vf.try_get i =
      (.ok x, { vf with
        file := { content := vf.file.content, pos := vf.len * vf.width } }) := by
  have hbc : vf.bounds_check i = true := by simpa [VecFile.bounds_check] using hi
  have hci := calc_index_ok vf.width i hw
    (le_trans (Nat.mul_le_mul_right _ (by omega)) hb)
  have hcl := calc_index_ok vf.width vf.len hw hb
  have hdiv : i * vf.width / vf.width = i := Nat.mul_div_cancel i (by omega)
  have hx2 : vf.file.content[i]? = some x := by rwa [List.get?_eq_getElem?] at hx
  simp [VecFile.try_get, hbc, hci, FState.readSlot, FState.seekTo, hdiv, hx2,
    VecFile.reset_seek_to_len, hcl]

/-- **C5**: for every instance, every `i < len` and every value `v`,
`set(i, v)` followed by `get(i)` returns `v`.  (`width ≥ 1` and the slot
bound of `calc_index` are the standing preconditions of any usable
instance.) -/
theorem c5_set_get_roundtrip (α : Type) (vf : VecFile α) (i : Nat) (v : α)
    (hw : 1 ≤ vf.width) (hi : i < vf.len) (hb : (vf.len + 1) * vf.width ≤ 2 ^ 64) :
    ∃ vf1 vf2, vf.try_set i v = (.ok (), vf1) ∧ vf1.try_get i = (.ok v, vf2) := by
  exact ⟨_, _, try_set_spec vf i v hw hi hb,
    try_get_found _ i v hw hi hb (listSetPad_get_self vf.file.content i vf.zero v)⟩

theorem c5_set_get_roundtrip_witness :
    1 ≤ sample1.width ∧ 0 < sample1.len ∧ (sample1.len + 1) * sample1.width ≤ 2 ^ 64
    ∧ ∃ vf1 vf2, sample1.try_set 0 7 = (.ok (), vf1) ∧ vf1.try_get 0 = (.ok 7, vf2) :=
  ⟨by decide, by decide, by decide,
   c5_set_get_roundtrip Nat sample1 0 7 (by decide) (by decide) (by decide)⟩

/-! ### Equality (C3) -/

theorem eqListLoop_spec {α : Type} [DecidableEq α] (f : FState α) :
    ∀ (other : List α) (i r : Nat),
    (∀ j, j < r → (f.content.get? (i + j)).isSome) →
    (eqListLoop f other i r = some true ↔
      ∀ j, j < min r other.length → f.content.get? (i + j) = other.get? j) := by
  intro other
  induction other with
  | nil =>
    intro i r hs
    cases r with
    | zero => simp [eqListLoop]
    | succ r' =>
      obtain ⟨e, he⟩ := Option.isSome_iff_exists.mp (hs 0 (Nat.succ_pos r'))
      rw [Nat.add_zero] at he
      rw [eqListLoop, he]
      simp
  | cons o rest ih =>
    intro i r hs
    cases r with
    | zero => simp [eqListLoop]
    | succ r' =>
      obtain ⟨e, he⟩ := Option.isSome_iff_exists.mp (hs 0 (Nat.succ_pos r'))
      rw [Nat.add_zero] at he
      by_cases heo : e = o
      · subst heo
        have hs' : ∀ j, j < r' → (f.content.get? (i + 1 + j)).isSome := by
          intro j hj
          have h2 := hs (j + 1) (by omega)
          rwa [show i + (j + 1) = i + 1 + j by omega] at h2
        have ihx := ih (i + 1) r' hs'
        rw [eqListLoop, he]
        simp only [eq_self_iff_true, if_true]
        rw [ihx]
        constructor
        · intro h j hj
          cases j with
          | zero =>
            rw [Nat.add_zero, he]
            rfl
          | succ j' =>
            have h2 := h j' (by simp at hj ⊢; omega)
            rw [show i + (j' + 1) = i + 1 + j' by omega]
            simpa using h2
        · intro h j hj
          have h2 := h (j + 1) (by simp at hj ⊢; omega)
          rw [show i + (j + 1) = i + 1 + j by omega] at h2
          simpa using h2
      · rw [eqListLoop, he]
        simp only [if_neg heo]
        constructor
        · intro h
          exact absurd h (by simp)
        · intro h
          have h0 := h 0 (by simp)
          rw [Nat.add_zero, he] at h0
          simp at h0
          exact absurd h0 heo

theorem eqVFLoop_spec {α : Type} [DecidableEq α] (f1 f2 : FState α) :
    ∀ (a i b : Nat),
    (∀ j, j < a → (f1.content.get? (i + j)).isSome) →
    (∀ j, j < min a b → (f2.content.get? (i + j)).isSome) →
    (eqVFLoop f1 f2 i a b = some true ↔
      ∀ j, j < min a b → f1.content.get? (i + j) = f2.content.get? (i + j)) := by
  intro a
  induction a with
  | zero =>
    intro i b _ _
    simp [eqVFLoop]
  | succ a' ih =>
    intro i b hs1 hs2
    obtain ⟨e1, he1⟩ := Option.isSome_iff_exists.mp (hs1 0 (Nat.succ_pos a'))
    rw [Nat.add_zero] at he1
    cases b with
    | zero =>
      rw [eqVFLoop, he1]
      simp
    | succ b' =>
      obtain ⟨e2, he2⟩ := Option.isSome_iff_exists.mp (hs2 0 (by simp))
      rw [Nat.add_zero] at he2
      by_cases h12 : e1 = e2
      · subst h12
        have hs1' : ∀ j, j < a' → (f1.content.get? (i + 1 + j)).isSome := by
          intro j hj
          have h2 := hs1 (j + 1) (by omega)
          rwa [show i + (j + 1) = i + 1 + j by omega] at h2
        have hs2' : ∀ j, j < min a' b' → (f2.content.get? (i + 1 + j)).isSome := by
          intro j hj
          have h2 := hs2 (j + 1) (by simp at hj ⊢; omega)
          rwa [show i + (j + 1) = i + 1 + j by omega] at h2
        have ihx := ih (i + 1) b' hs1' hs2'
        rw [eqVFLoop, he1, he2]
        simp only [eq_self_iff_true, if_true]
        rw [ihx]
        constructor
        · intro h j hj
          cases j with
          | zero => rw [Nat.add_zero, he1, he2]
          | succ j' =>
            have h2 := h j' (by simp at hj ⊢; omega)
            rw [show i + (j' + 1) = i + 1 + j' by omega]
            exact h2
        · intro h j hj
          have h2 := h (j + 1) (by simp at hj ⊢; omega)
          rwa [show i + (j + 1) = i + 1 + j by omega] at h2
      · rw [eqVFLoop, he1, he2]
        simp only [if_neg h12]
        constructor
        · intro h
          exact absurd h (by simp)
        · intro h
          have h0 := h 0 (by simp)
          rw [Nat.add_zero, he1, he2] at h0
          simp at h0
          exact absurd h0 h12

/-- **C3** (counterexample): a two-element instance compares equal to a
three-element list — `zip` truncates to the shorter operand, so operands of
different lengths can be equal, contrary to the claim. -/
theorem c3_length_counterexample :
    vecfile_eq_list (pushAll (VecFile.mkNew 1 (0 : Nat)) [1, 2]).2 [1, 2, 3] = some true
    ∧ (pushAll (VecFile.mkNew 1 (0 : Nat)) [1, 2]).2.len ≠ ([1, 2, 3] : List Nat).length := by
  decide

/-- **C3** (amended): equality between a `VecFile` and an in-memory sequence,
or between two `VecFile`s, holds if and only if the operands agree
element-wise over the common prefix `[0, min(len1, len2))` — two operands of
different lengths are equal exactly when the shorter is a prefix of the
longer.  (Stated for instances whose live slots are all readable.) -/
theorem c3_prefix_equality :
    (∀ (α : Type) [DecidableEq α] (vf : VecFile α) (other : List α),
      (∀ j, j < vf.len → (vf.file.content.get? j).isSome) →
      (vecfile_eq_list vf other = some true ↔
        ∀ j, j < min vf.len other.length → vf.file.content.get? j = other.get? j))
    ∧ (∀ (α : Type) [DecidableEq α] (v1 v2 : VecFile α),
      (∀ j, j < v1.len → (v1.file.content.get? j).isSome) →
      (∀ j, j < min v1.len v2.len → (v2.file.content.get? j).isSome) →
      (vecfile_eq_vecfile v1 v2 = some true ↔
        ∀ j, j < min v1.len v2.len → v1.file.content.get? j = v2.file.content.get? j)) := by
  constructor
  · intro α _ vf other hs
    have h := eqListLoop_spec vf.file other 0 vf.len (by simpa using hs)
    simpa [vecfile_eq_list] using h
  · intro α _ v1 v2 hs1 hs2
    have h := eqVFLoop_spec v1.file v2.file v1.len 0 v2.len (by simpa using hs1)
      (by simpa using hs2)
    simpa [vecfile_eq_vecfile] using h

theorem c3_prefix_equality_witness :
    ((∀ j, j < (pushAll (VecFile.mkNew 1 (0 : Nat)) [1, 2]).2.len →
        (((pushAll (VecFile.mkNew 1 (0 : Nat)) [1, 2]).2.file.content.get? j)).isSome)
      ∧ (vecfile_eq_list (pushAll (VecFile.mkNew 1 (0 : Nat)) [1, 2]).2 [1, 2, 3] = some true ↔
          ∀ j, j < min (pushAll (VecFile.mkNew 1 (0 : Nat)) [1, 2]).2.len
                  ([1, 2, 3] : List Nat).length →
            (pushAll (VecFile.mkNew 1 (0 : Nat)) [1, 2]).2.file.content.get? j
              = ([1, 2, 3] : List Nat).get? j)) :=
  ⟨by decide, c3_prefix_equality.1 Nat (pushAll (VecFile.mkNew 1 0) [1, 2]).2 [1, 2, 3] (by decide)⟩

/-! ### Push / pop (C4) -/

theorem write_at_curr_seek_len {α : Type} (vf : VecFile α) (v : α) :
    (vf.write_at_curr_seek v).len = vf.len := rfl

theorem expand_if_needed_len {α : Type} (vf : VecFile α) :
    vf.expand_if_needed.len = vf.len := by
  unfold VecFile.expand_if_needed
  split <;> rfl

/-- What `expand_if_needed` guarantees on a well-formed state, provided a
needed doubling would not overflow u64 (`cap * 2 * width < 2^64`, so neither
`self.cap * 2` nor the `set_len` byte size wraps): a state that agrees with
the input except that `len < cap` now holds, the capacity did not shrink,
and every present slot is preserved. -/
theorem expand_if_needed_spec {α : Type} (vf : VecFile α) (hw : 1 ≤ vf.width)
    (hlen : vf.len ≤ vf.cap)
    (hcl : vf.file.content.length ≤ vf.cap) (hcap : 0 < vf.cap)
    (hnw : vf.len = vf.cap → vf.cap * 2 * vf.width < 2 ^ 64) :
    ∃ vf1, vf.expand_if_needed = vf1
      ∧ vf1.width = vf.width ∧ vf1.zero = vf.zero ∧ vf1.len = vf.len
      ∧ vf1.file.pos = vf.file.pos
      ∧ vf.len < vf1.cap ∧ vf1.file.content.length ≤ vf1.cap
      ∧ vf.cap ≤ vf1.cap
      ∧ (∀ j x, vf.file.content.get? j = some x → vf1.file.content.get? j = some x) := by
  unfold VecFile.expand_if_needed
  by_cases hfull : vf.len = vf.cap
  · rw [if_pos hfull]
    have hsz : vf.cap * 2 * vf.width < 2 ^ 64 := hnw hfull
    have hc2 : vf.cap * 2 < 2 ^ 64 := by
      have h0 : vf.cap * 2 * 1 ≤ vf.cap * 2 * vf.width := Nat.mul_le_mul_left _ hw
      omega
    have hwrap1 : wrap (vf.cap * 2) = vf.cap * 2 := wrap_eq hc2
    have hwrap2 : wrap (vf.cap * 2 * vf.width) / vf.width = vf.cap * 2 := by
      rw [wrap_eq hsz]
      exact Nat.mul_div_cancel _ (by omega)
    refine ⟨vf.expand, rfl, rfl, rfl, rfl, rfl, ?_, ?_, ?_, ?_⟩
    · simp only [VecFile.expand, hwrap1]
      omega
    · simp only [VecFile.expand, setLenSlots_length, hwrap1, hwrap2]
      omega
    · simp only [VecFile.expand, hwrap1]
      omega
    · intro j x hj
      simp only [VecFile.expand, hwrap1, hwrap2]
      exact setLenSlots_get vf.file (vf.cap * 2) vf.zero j x hj (by omega)
  · rw [if_neg hfull]
    exact ⟨vf, rfl, rfl, rfl, rfl, rfl, by omega, hcl, le_refl _, fun j x hj => hj⟩

/-- A successful `try_push` reduces to expand-if-needed, a slot write at the
cursor, and a (wrapping) `len` increment. -/
theorem try_push_ok {α : Type} (vf : VecFile α) (v : α)
    (hci : calc_index vf.width vf.len = .ok (vf.len * vf.width)) :
    vf.try_push v =
      (.ok (), { vf.expand_if_needed.write_at_curr_seek v with
                 len := wrap (vf.expand_if_needed.len + 1) }) := by
  unfold VecFile.try_push
  rw [hci]
  rfl

/-- Full specification of a successful `try_push` from a well-formed state:
`len` grows by one, the cursor ends at the new `len * width`, the pushed
value sits in slot `len`, the live slots are preserved, and the capacity
never shrinks. -/
theorem try_push_spec {α : Type} (vf : VecFile α) (v : α)
    (hw : 1 ≤ vf.width) (hpos : vf.file.pos = vf.len * vf.width)
    (hlen : vf.len ≤ vf.cap) (hcl : vf.file.content.length ≤ vf.cap) (hcap : 0 < vf.cap)
    (hb : (vf.len + 1) * vf.width ≤ 2 ^ 63) :
    ∃ vf2, vf.try_push v = (.ok (), vf2)
      ∧ vf2.width = vf.width ∧ vf2.zero = vf.zero ∧ vf2.len = vf.len + 1
      ∧ vf2.file.pos = vf2.len * vf2.width
      ∧ vf2.len ≤ vf2.cap ∧ vf2.file.content.length ≤ vf2.cap ∧ 0 < vf2.cap
      ∧ (∀ j x, j < vf.len → vf.file.content.get? j = some x →
          vf2.file.content.get? j = some x)
      ∧ vf2.file.content.get? vf.len = some v
      ∧ vf.cap ≤ vf2.cap := by
  have hnw : vf.len = vf.cap → vf.cap * 2 * vf.width < 2 ^ 64 := by
    intro hfull
    have h1 : vf.len * (2 * vf.width) < (vf.len + 1) * (2 * vf.width) :=
      Nat.mul_lt_mul_of_pos_right (by omega) (by omega)
    have h2 : (vf.len + 1) * (2 * vf.width) = 2 * ((vf.len + 1) * vf.width) := by ring
    calc vf.cap * 2 * vf.width = vf.len * (2 * vf.width) := by rw [← hfull]; ring
      _ < (vf.len + 1) * (2 * vf.width) := h1
      _ = 2 * ((vf.len + 1) * vf.width) := h2
      _ ≤ 2 * 2 ^ 63 := by omega
      _ = 2 ^ 64 := by norm_num
  obtain ⟨vf1, he, hW, hZ, hL, hP, hltcap, hcl1, hcapmono, hpres⟩ :=
    expand_if_needed_spec vf hw hlen hcl hcap hnw
  have hci := calc_index_ok vf.width vf.len hw (le_trans hb (by norm_num))
  have heq := try_push_ok vf v hci
  rw [he] at heq
  have hlen1 : vf.len + 1 < 2 ^ 64 := by
    have h0 : (vf.len + 1) * 1 ≤ (vf.len + 1) * vf.width := Nat.mul_le_mul_left _ hw
    omega
  have hlenw : wrap (vf1.len + 1) = vf.len + 1 := by
    rw [hL, wrap_eq hlen1]
  have hdiv : vf1.file.pos / vf1.width = vf.len := by
    rw [hP, hpos, hW]
    exact Nat.mul_div_cancel _ (by omega)
  refine ⟨_, heq, ?_, ?_, ?_, ?_, ?_, ?_, ?_, ?_, ?_, ?_⟩
  · simp [VecFile.write_at_curr_seek, hW]
  · simp [VecFile.write_at_curr_seek, hZ]
  · simp [VecFile.write_at_curr_seek, hlenw]
  · simp only [VecFile.write_at_curr_seek, FState.writeSlot, hP, hpos, hW, hlenw]
    rw [Nat.succ_mul]
  · simp only [VecFile.write_at_curr_seek, hlenw]
    omega
  · simp only [VecFile.write_at_curr_seek, FState.writeSlot, hdiv, listSetPad_length]
    omega
  · simp only [VecFile.write_at_curr_seek]
    omega
  · intro j x hjlt hj
    simp only [VecFile.write_at_curr_seek, FState.writeSlot, hdiv]
    exact listSetPad_get_ne _ _ _ _ _ _ (by omega) (hpres j x hj)
  · simp only [VecFile.write_at_curr_seek, FState.writeSlot, hdiv]
    exact listSetPad_get_self _ _ _ _
  · simp only [VecFile.write_at_curr_seek]
    omega

/-- Full specification of a successful `try_pop` from a well-formed state:
it returns the element in slot `len - 1`, leaves the content untouched, and
moves the cursor one slot back. -/
theorem try_pop_spec {α : Type} (vf : VecFile α) (x : α)
    (hw : 1 ≤ vf.width) (hpos : vf.file.pos = vf.len * vf.width) (hlen : 0 < vf.len)
    (hx : vf.file.content.get? (vf.len - 1) = some x) :
    vf.try_pop = (.ok x, { vf with
      file := { content := vf.file.content, pos := (vf.len - 1) * vf.width },
      len := vf.len - 1 }) := by
  have hpw : vf.file.pos - vf.width = (vf.len - 1) * vf.width := by
    rw [hpos, Nat.sub_mul, one_mul]
  have hdiv : (vf.len - 1) * vf.width / vf.width = vf.len - 1 :=
    Nat.mul_div_cancel _ (by omega)
  have hx2 : vf.file.content[vf.len - 1]? = some x := by
    rwa [List.get?_eq_getElem?] at hx
  unfold VecFile.try_pop
  rw [if_pos hlen]
  simp [FState.seekTo, FState.readSlot, hpw, hdiv, hx2]

/-- Pushing a whole list from a well-formed state: all pushes succeed (under
the u64 slot bound), `len` grows by the list length, the new slots hold the
pushed values in order, and the old live slots are preserved. -/
theorem pushAll_spec {α : Type} :
    ∀ (vs : List α) (vf : VecFile α),
    1 ≤ vf.width → vf.file.pos = vf.len * vf.width → vf.len ≤ vf.cap →
    vf.file.content.length ≤ vf.cap → 0 < vf.cap →
    (vf.len + vs.length) * vf.width ≤ 2 ^ 63 →
    ∃ vf2, pushAll vf vs = (.ok (), vf2)
      ∧ vf2.width = vf.width ∧ vf2.zero = vf.zero
      ∧ vf2.len = vf.len + vs.length
      ∧ vf2.file.pos = vf2.len * vf2.width
      ∧ vf2.len ≤ vf2.cap ∧ vf2.file.content.length ≤ vf2.cap ∧ 0 < vf2.cap
      ∧ (∀ j x, j < vf.len → vf.file.content.get? j = some x →
          vf2.file.content.get? j = some x)
      ∧ (∀ j, j < vs.length → vf2.file.content.get? (vf.len + j) = vs.get? j)
      ∧ vf.cap ≤ vf2.cap := by
  intro vs
  induction vs with
  | nil =>
    intro vf hw hpos hlen hcl hcap _
    exact ⟨vf, rfl, rfl, rfl, by simp, hpos, hlen, hcl, hcap,
      fun j x _ h => h, fun j hj => absurd hj (by simp), le_refl _⟩
  | cons v rest ih =>
    intro vf hw hpos hlen hcl hcap hb
    have hb1 : (vf.len + 1) * vf.width ≤ 2 ^ 63 :=
      le_trans (Nat.mul_le_mul_right _ (by simp)) hb
    obtain ⟨vf1, heq1, hW1, hZ1, hL1, hP1, hlc1, hcl1, hcap1, hpres1, hslot1, hcm1⟩ :=
      try_push_spec vf v hw hpos hlen hcl hcap hb1
    have hb2 : (vf1.len + rest.length) * vf1.width ≤ 2 ^ 63 := by
      rw [hL1, hW1, show vf.len + 1 + rest.length = vf.len + (rest.length + 1) by omega]
      simpa using hb
    obtain ⟨vf2, heq2, hW2, hZ2, hL2, hP2, hlc2, hcl2, hcap2, hpres2, hslot2, hcm2⟩ :=
      ih vf1 (hW1 ▸ hw) hP1 hlc1 hcl1 hcap1 hb2
    refine ⟨vf2, ?_, ?_, ?_, ?_, hP2, hlc2, hcl2, hcap2, ?_, ?_, ?_⟩
    · rw [pushAll, heq1]
      exact heq2
    · rw [hW2, hW1]
    · rw [hZ2, hZ1]
    · rw [hL2, hL1]
      simp
      omega
    · intro j x hjlt hj
      exact hpres2 j x (by omega) (hpres1 j x hjlt hj)
    · intro j hj
      cases j with
      | zero =>
        rw [Nat.add_zero]
        have hkeep := hpres2 vf.len v (by omega) hslot1
        simpa using hkeep
      | succ j' =>
        have hs := hslot2 j' (by simpa using hj)
        rw [hL1, show vf.len + 1 + j' = vf.len + (j' + 1) by omega] at hs
        simpa using hs
    · exact le_trans hcm1 hcm2

/-- Popping `ws.length` elements from a well-formed state whose slots
`[len0, len0 + ws.length)` hold `ws`: all pops succeed, returning
`ws.reverse`, leaving the content untouched, `len = len0` and the cursor at
slot `len0`. -/
theorem popN_spec {α : Type} :
    ∀ (ws : List α) (vf : VecFile α) (len0 : Nat),
    1 ≤ vf.width → vf.file.pos = vf.len * vf.width →
    vf.len = len0 + ws.length →
    (∀ j, j < ws.length → vf.file.content.get? (len0 + j) = ws.get? j) →
    popN vf ws.length =
      (.ok ws.reverse, { vf with
        file := { content := vf.file.content, pos := len0 * vf.width },
        len := len0 }) := by
  intro ws
  induction ws using List.reverseRecOn with
  | nil =>
    intro vf len0 hw hpos hL _
    have hL0 : len0 = vf.len := by simpa using hL.symm
    subst hL0
    rw [← hpos]
    simp [popN]
  | append_singleton ws0 w ih =>
    intro vf len0 hw hpos hL hslots
    have hL1 : vf.len = len0 + ws0.length + 1 := by
      rw [hL]
      simp
      omega
    have hx : vf.file.content.get? (vf.len - 1) = some w := by
      have hs := hslots ws0.length (by simp)
      rw [List.get?_concat_length] at hs
      rw [show vf.len - 1 = len0 + ws0.length by omega]
      exact hs
    have hpop := try_pop_spec vf w hw hpos (by omega) hx
    have hih := ih { vf with
        file := { content := vf.file.content, pos := (vf.len - 1) * vf.width },
        len := vf.len - 1 } len0 hw rfl
      (by show vf.len - 1 = len0 + ws0.length; omega)
      (fun j hj => by
        show vf.file.content.get? (len0 + j) = ws0.get? j
        have hs := hslots j (by simp; omega)
        rwa [List.get?_append (by omega)] at hs)
    rw [show (ws0 ++ [w]).length = ws0.length + 1 by simp]
    rw [popN, hpop]
    simp only [hih]
    simp

/-- **C4** (amended): from any well-formed state, provided the total slot
demand stays in the wrap-free range (`(len + n) * width ≤ 2^63`, so no
capacity doubling, byte size or `len` increment overflows u64), pushing
`v1, ..., vn` and then popping `n` times returns `vn, ..., v1` (the reverse
of the pushed list); moreover every successful push from `len + 1 < 2^64`
increments `len` by exactly one, and every successful pop decrements it by
exactly one. -/
theorem c4_lifo (α : Type) (vf : VecFile α) (vs : List α)
    (hw : 1 ≤ vf.width) (hpos : vf.file.pos = vf.len * vf.width)
    (hlen : vf.len ≤ vf.cap) (hcl : vf.file.content.length ≤ vf.cap) (hcap : 0 < vf.cap)
    (hb : (vf.len + vs.length) * vf.width ≤ 2 ^ 63) :
    (∃ vf1 vf2, pushAll vf vs = (.ok (), vf1) ∧ vf1.len = vf.len + vs.length
      ∧ popN vf1 vs.length = (.ok vs.reverse, vf2) ∧ vf2.len = vf.len)
    ∧ (∀ (u w : VecFile α) (x : α), u.len + 1 < 2 ^ 64 →
        u.try_push x = (.ok (), w) → w.len = u.len + 1)
    ∧ (∀ (u w : VecFile α) (x : α), u.try_pop = (.ok x, w) →
        w.len = u.len - 1 ∧ 0 < u.len) := by
  refine ⟨?_, ?_, ?_⟩
  · obtain ⟨vf1, heq1, hW1, hZ1, hL1, hP1, hlc1, hcl1, hcap1, hpres1, hslot1, hcm1⟩ :=
      pushAll_spec vs vf hw hpos hlen hcl hcap hb
    have hpop := popN_spec vs vf1 vf.len (by rw [hW1]; exact hw) hP1 hL1
      (fun j hj => hslot1 j hj)
    exact ⟨vf1, _, heq1, hL1, hpop, rfl⟩
  · intro u w x hlt h
    unfold VecFile.try_push at h
    split at h
    · have hw2 := congrArg Prod.snd h
      simp only at hw2
      rw [← hw2]
      show wrap ((u.expand_if_needed.write_at_curr_seek x).len + 1) = u.len + 1
      rw [write_at_curr_seek_len, expand_if_needed_len, wrap_eq hlt]
    · simp at h
  · intro u w x h
    unfold VecFile.try_pop at h
    split at h
    · split at h
      · simp at h
      · have hw2 := congrArg Prod.snd h
        simp only at hw2
        constructor
        · rw [← hw2]
        · omega
    · simp at h

theorem c4_lifo_witness :
    1 ≤ (VecFile.mkNew 8 (0 : Nat)).width
    ∧ ((VecFile.mkNew 8 (0 : Nat)).len + ([1, 2, 3] : List Nat).length) *
        (VecFile.mkNew 8 (0 : Nat)).width ≤ 2 ^ 63
    ∧ (∃ vf1 vf2, pushAll (VecFile.mkNew 8 (0 : Nat)) [1, 2, 3] = (.ok (), vf1)
        ∧ vf1.len = (VecFile.mkNew 8 (0 : Nat)).len + ([1, 2, 3] : List Nat).length
        ∧ popN vf1 ([1, 2, 3] : List Nat).length = (.ok ([1, 2, 3] : List Nat).reverse, vf2)
        ∧ vf2.len = (VecFile.mkNew 8 (0 : Nat)).len) :=
  ⟨by decide, by decide,
   (c4_lifo Nat (VecFile.mkNew 8 0) [1, 2, 3] (by decide) (by decide) (by decide)
      (by decide) (by decide) (by decide)).1⟩

/-- Reading a slot of the zero-extension pad: indices past the original
content but below the written index decode the zero element. -/
theorem listSetPad_get_pad {α : Type} (l : List α) (i j : Nat) (z v : α)
    (hlj : l.length ≤ j) (hji : j < i) :
    (listSetPad l i z v).get? j = some z := by
  rw [listSetPad, List.get?_eq_getElem?, List.getElem?_set_ne (by omega),
    List.getElem?_append, if_neg (by omega), List.getElem?_replicate,
    if_pos (by omega)]

/-- `set_len(0)` empties the file and leaves the cursor alone. -/
theorem setLenSlots_zero {α : Type} (f : FState α) (z : α) :
    f.setLenSlots 0 z = { f with content := [] } := by
  unfold FState.setLenSlots
  congr 1
  simp

/-- A `readSlot` that finds its slot returns it and advances the cursor. -/
theorem readSlot_some {α : Type} (f : FState α) (w : Nat) (v : α)
    (h : f.content.get? (f.pos / w) = some v) :
    f.readSlot w = (.ok v, { f with pos := f.pos + w }) := by
  unfold FState.readSlot
  rw [h]

/-- Closed form of a `try_pop` whose backward read finds a slot. -/
theorem try_pop_found {α : Type} (vf : VecFile α) (v : α) (hlen : 0 < vf.len)
    (h : vf.file.content.get? ((vf.file.pos - vf.width) / vf.width) = some v) :
    vf.try_pop = (.ok v,
      { vf with
        file := { content := vf.file.content,
                  pos := vf.file.pos - vf.width + vf.width - vf.width },
        len := vf.len - 1 }) := by
  unfold VecFile.try_pop
  rw [if_pos hlen]
  rw [readSlot_some (vf.file.seekTo (vf.file.pos - vf.width)) vf.width v h]
  rfl

theorem pushAll_cons_ok {α : Type} (vf vf1 : VecFile α) (v : α) (vs : List α)
    (h : vf.try_push v = (.ok (), vf1)) :
    pushAll vf (v :: vs) = pushAll vf1 vs := by
  conv_lhs => unfold pushAll
  rw [h]

theorem popN_succ_ok {α : Type} (vf vf1 vf2 : VecFile α) (v : α) (vs : List α) (m : Nat)
    (h : vf.try_pop = (.ok v, vf1)) (h2 : popN vf1 m = (.ok vs, vf2)) :
    popN vf (m + 1) = (.ok (v :: vs), vf2) := by
  conv_lhs => unfold popN
  rw [h]
  simp only [h2]

/-- A well-formed width-1 instance holding `2^63 - 1` elements (the state a
fresh instance reaches after `2^63 - 1` pushes): cursor at slot `len`,
`len < cap = 2^63`, backing file zero-extended on demand. -/
def sampleWrap : VecFile Nat :=
  VecFile.from_raw_parts 1 0 { content := [], pos := 9223372036854775807 } (9223372036854775807) (9223372036854775808)

/-- `sampleWrap` after `push 7`: the slot is written, `len = cap = 2^63`. -/
def sampleWrap1 : VecFile Nat :=
  VecFile.from_raw_parts 1 0
    { content := listSetPad [] (9223372036854775807) 0 7, pos := 9223372036854775808 } (9223372036854775808) (9223372036854775808)

/-- `sampleWrap1` after `push 9`: the expansion wrapped `cap` to 0 and its
`set_len(0)` wiped the file (destroying the 7) before the 9 was written. -/
def sampleWrap2 : VecFile Nat :=
  VecFile.from_raw_parts 1 0
    { content := listSetPad [] (9223372036854775808) 0 9, pos := 9223372036854775809 } (9223372036854775809) 0

/-- `sampleWrap2` after one pop (which returns 9). -/
def sampleWrap3 : VecFile Nat :=
  VecFile.from_raw_parts 1 0
    { content := listSetPad [] (9223372036854775808) 0 9, pos := 9223372036854775808 } (9223372036854775808) 0

/-- `sampleWrap3` after one pop (which returns 0, a zero-pad slot). -/
def sampleWrap4 : VecFile Nat :=
  VecFile.from_raw_parts 1 0
    { content := listSetPad [] (9223372036854775808) 0 9, pos := 9223372036854775807 } (9223372036854775807) 0

theorem push1_eq : sampleWrap.try_push 7 = (.ok (), sampleWrap1) := by
  have hci1 : calc_index sampleWrap.width sampleWrap.len
      = .ok (sampleWrap.len * sampleWrap.width) :=
    calc_index_ok 1 (9223372036854775807) (le_refl 1) (by norm_num)
  have hnoe : sampleWrap.expand_if_needed = sampleWrap := by
    unfold VecFile.expand_if_needed
    rw [if_neg (by decide : ¬ (sampleWrap.len = sampleWrap.cap))]
  rw [try_push_ok sampleWrap 7 hci1, hnoe]
  rfl

theorem sampleWrap1_expand_if_needed :
    sampleWrap1.expand_if_needed
      = VecFile.from_raw_parts 1 0 { content := [], pos := 9223372036854775808 } (9223372036854775808) 0 := by
  have h0 : sampleWrap1.file.setLenSlots
      (wrap (wrap (sampleWrap1.cap * 2) * sampleWrap1.width) / sampleWrap1.width)
      sampleWrap1.zero
      = { content := [], pos := 9223372036854775808 } := by
    have he : wrap (wrap (sampleWrap1.cap * 2) * sampleWrap1.width) / sampleWrap1.width
        = 0 := by decide
    rw [he, setLenSlots_zero]
    rfl
  have hfull : sampleWrap1.len = sampleWrap1.cap := rfl
  unfold VecFile.expand_if_needed
  rw [if_pos hfull]
  show ({ sampleWrap1 with
      cap := wrap (sampleWrap1.cap * 2),
      file := sampleWrap1.file.setLenSlots
        (wrap (wrap (sampleWrap1.cap * 2) * sampleWrap1.width) / sampleWrap1.width)
        sampleWrap1.zero,
      shadows := sampleWrap1.shadows.map (fun s =>
        s.setLenSlots
          (wrap (wrap (sampleWrap1.cap * 2) * sampleWrap1.width) / sampleWrap1.width)
          sampleWrap1.zero) } : VecFile Nat)
    = VecFile.from_raw_parts 1 0 { content := [], pos := 9223372036854775808 } (9223372036854775808) 0
  rw [h0]
  rfl

theorem push2_eq : sampleWrap1.try_push 9 = (.ok (), sampleWrap2) := by
  have hci2 : calc_index sampleWrap1.width sampleWrap1.len
      = .ok (sampleWrap1.len * sampleWrap1.width) :=
    calc_index_ok 1 (9223372036854775808) (le_refl 1) (by norm_num)
  rw [try_push_ok sampleWrap1 9 hci2, sampleWrap1_expand_if_needed]
  rfl

theorem pop1_eq : sampleWrap2.try_pop = (.ok 9, sampleWrap3) :=
  try_pop_found sampleWrap2 9 (by decide) (listSetPad_get_self [] (9223372036854775808) 0 9)

theorem pop2_eq : sampleWrap3.try_pop = (.ok 0, sampleWrap4) :=
  try_pop_found sampleWrap3 0 (by decide)
    (listSetPad_get_pad [] (9223372036854775808) (9223372036854775807) 0 9 (Nat.zero_le _) (by norm_num))

/-- Counterexample to C4 as stated: on a well-formed width-1 instance
holding `2^63 - 1` elements (the state `2^63 - 1` pushes reach), pushing
`[7, 9]` succeeds, but the second push finds `len = cap = 2^63` and expands:
`cap * 2` wraps to 0 and `set_len(0)` truncates the backing file, so the 7
written by the first push is destroyed.  Two pops then return `[9, 0]` — the
0 decoded from the re-zero-extended file — instead of `[9, 7]`, refuting the
LIFO round trip (in release builds, where u64 arithmetic wraps). -/
theorem c4_lifo_counterexample :
    pushAll sampleWrap [7, 9] = (.ok (), sampleWrap2)
    ∧ popN sampleWrap2 2 = (.ok [9, 0], sampleWrap4)
    ∧ ([9, 0] : List Nat) ≠ ([7, 9] : List Nat).reverse := by
  refine ⟨?_, ?_, by decide⟩
  · rw [pushAll_cons_ok sampleWrap sampleWrap1 7 [9] push1_eq,
      pushAll_cons_ok sampleWrap1 sampleWrap2 9 [] push2_eq]
    rfl
  · exact popN_succ_ok sampleWrap2 sampleWrap3 sampleWrap4 9 [0] 1 pop1_eq
      (popN_succ_ok sampleWrap3 sampleWrap4 sampleWrap4 0 [] 0 pop2_eq rfl)

/-! ### Capacity invariant (C6) -/

/-- The capacity invariant of the claim: `len ≤ cap`, and `cap` is
`8 * 2 ^ k` (a power-of-two multiple of the fixed initial capacity). -/
def Inv {α : Type} (vf : VecFile α) : Prop :=
  vf.len ≤ vf.cap ∧ ∃ k, vf.cap = 8 * 2 ^ k

theorem reset_seek_to_len_len_cap {α : Type} (vf : VecFile α) :
    (vf.reset_seek_to_len).2.len = vf.len ∧ (vf.reset_seek_to_len).2.cap = vf.cap := by
  unfold VecFile.reset_seek_to_len
  split <;> exact ⟨rfl, rfl⟩

theorem try_get_len_cap {α : Type} (vf : VecFile α) (i : Nat) :
    (vf.try_get i).2.len = vf.len ∧ (vf.try_get i).2.cap = vf.cap := by
  unfold VecFile.try_get
  split
  · exact ⟨rfl, rfl⟩
  · split
    · exact ⟨rfl, rfl⟩
    · split
      · exact ⟨rfl, rfl⟩
      · rename_i v f2 heq2
        have h3 := reset_seek_to_len_len_cap { vf with file := f2 }
        rcases hr : VecFile.reset_seek_to_len { vf with file := f2 } with ⟨r2, vf3⟩
        rw [hr] at h3
        cases r2 <;> exact h3

theorem try_set_len_cap {α : Type} (vf : VecFile α) (i : Nat) (v : α) :
    (vf.try_set i v).2.len = vf.len ∧ (vf.try_set i v).2.cap = vf.cap := by
  unfold VecFile.try_set
  split
  · exact ⟨rfl, rfl⟩
  · split
    · exact ⟨rfl, rfl⟩
    · exact reset_seek_to_len_len_cap _

theorem expand_if_needed_cap {α : Type} (vf : VecFile α) :
    vf.expand_if_needed.cap = if vf.len = vf.cap then wrap (vf.cap * 2) else vf.cap := by
  unfold VecFile.expand_if_needed
  split <;> simp_all [VecFile.expand]

theorem shiftRightStep_len_cap {α : Type} (vf : VecFile α) (i : Nat) :
    (vf.shiftRightStep i).2.len = vf.len ∧ (vf.shiftRightStep i).2.cap = vf.cap := by
  unfold VecFile.shiftRightStep
  have hg := try_get_len_cap vf (if i = 0 then U64MAX else i - 1)
  rcases hgr : vf.try_get (if i = 0 then U64MAX else i - 1) with ⟨r, vf1⟩
  rw [hgr] at hg
  cases r with
  | error e => exact hg
  | ok curr =>
    have hs := try_set_len_cap vf1 i curr
    exact ⟨hs.1.trans hg.1, hs.2.trans hg.2⟩

theorem shiftRightLoop_len_cap {α : Type} :
    ∀ (idxs : List Nat) (vf : VecFile α),
    (vf.shiftRightLoop idxs).2.len = vf.len ∧ (vf.shiftRightLoop idxs).2.cap = vf.cap := by
  intro idxs
  induction idxs with
  | nil => intro vf; exact ⟨rfl, rfl⟩
  | cons i rest ih =>
    intro vf
    unfold VecFile.shiftRightLoop
    have hg := shiftRightStep_len_cap vf i
    rcases hgr : vf.shiftRightStep i with ⟨r, vf1⟩
    rw [hgr] at hg
    cases r with
    | error e => exact hg
    | ok u =>
      have h2 := ih vf1
      exact ⟨h2.1.trans hg.1, h2.2.trans hg.2⟩

theorem shiftLeftLoop_len_cap {α : Type} :
    ∀ (idxs : List Nat) (vf : VecFile α),
    (vf.shiftLeftLoop idxs).2.len = vf.len ∧ (vf.shiftLeftLoop idxs).2.cap = vf.cap := by
  intro idxs
  induction idxs with
  | nil => intro vf; exact ⟨rfl, rfl⟩
  | cons i rest ih =>
    intro vf
    unfold VecFile.shiftLeftLoop
    have hg := try_get_len_cap vf (i + 1)
    rcases hgr : vf.try_get (i + 1) with ⟨r, vf1⟩
    rw [hgr] at hg
    cases r with
    | error e => exact hg
    | ok curr =>
      have hs := try_set_len_cap vf1 i curr
      rcases hsr : vf1.try_set i curr with ⟨r2, vf2⟩
      rw [hsr] at hs
      cases r2 with
      | error e =>
        simp only [hsr]
        exact ⟨hs.1.trans hg.1, hs.2.trans hg.2⟩
      | ok u =>
        simp only [hsr]
        have h2 := ih vf2
        exact ⟨(h2.1.trans hs.1).trans hg.1, (h2.2.trans hs.2).trans hg.2⟩

theorem writeAll_len_cap {α : Type} :
    ∀ (items : List α) (vf : VecFile α),
    (vf.writeAll items).len = vf.len ∧ (vf.writeAll items).cap = vf.cap := by
  intro items
  induction items with
  | nil => intro vf; exact ⟨rfl, rfl⟩
  | cons v rest ih =>
    intro vf
    exact ih (vf.write_at_curr_seek v)

/-- The doubling loop with fuel `n`, on a run that never wraps: if
`target ≤ cap * 2 ^ n` (so the fuel suffices) and
`2 * target * width ≤ 2 ^ 64` (so no doubling taken while `cap < target`
overflows u64), `len` is unchanged, the capacity only grows, reaches at
least `target`, and is multiplied by a power of two. -/
theorem expandUntilAux_spec {α : Type} :
    ∀ (n : Nat) (vf : VecFile α) (target : Nat),
    target ≤ vf.cap * 2 ^ n → 0 < vf.cap → 1 ≤ vf.width →
    2 * target * vf.width ≤ 2 ^ 64 →
    (VecFile.expandUntilAux n vf target).len = vf.len
    ∧ vf.cap ≤ (VecFile.expandUntilAux n vf target).cap
    ∧ target ≤ (VecFile.expandUntilAux n vf target).cap
    ∧ ∃ j, (VecFile.expandUntilAux n vf target).cap = vf.cap * 2 ^ j := by
  intro n
  induction n with
  | zero =>
    intro vf target hfuel hcap hw hbw
    have htc : target ≤ vf.cap := by simpa using hfuel
    exact ⟨rfl, le_refl _, htc, 0, by show vf.cap = vf.cap * 2 ^ 0; simp⟩
  | succ n ih =>
    intro vf target hfuel hcap hw hbw
    by_cases hlt : vf.cap < target
    · have hstep : VecFile.expandUntilAux (n + 1) vf target
          = VecFile.expandUntilAux n vf.expand target := by
        show (if vf.cap < target ∧ 0 < vf.cap then VecFile.expandUntilAux n vf.expand target
          else vf) = VecFile.expandUntilAux n vf.expand target
        rw [if_pos ⟨hlt, hcap⟩]
      have h2t : 2 * target ≤ 2 ^ 64 := by
        have h0 : 2 * target * 1 ≤ 2 * target * vf.width := Nat.mul_le_mul_left _ hw
        omega
      have hcap2 : vf.expand.cap = vf.cap * 2 := by
        show wrap (vf.cap * 2) = vf.cap * 2
        exact wrap_eq (by omega)
      have hlen2 : vf.expand.len = vf.len := rfl
      have hfuel2 : target ≤ vf.expand.cap * 2 ^ n := by
        rw [hcap2]
        have hpow : vf.cap * 2 ^ (n + 1) = vf.cap * 2 * 2 ^ n := by ring
        omega
      obtain ⟨h1, h2, h3, j, h4⟩ := ih vf.expand target hfuel2 (by rw [hcap2]; omega)
        hw hbw
      rw [hstep]
      refine ⟨h1.trans hlen2, ?_, h3, j + 1, ?_⟩
      · rw [hcap2] at h2
        omega
      · rw [h4, hcap2, pow_succ]
        ring
    · have hstep : VecFile.expandUntilAux (n + 1) vf target = vf := by
        show (if vf.cap < target ∧ 0 < vf.cap then VecFile.expandUntilAux n vf.expand target
          else vf) = vf
        rw [if_neg (fun hand => hlt hand.1)]
      rw [hstep]
      exact ⟨rfl, le_refl _, by omega, 0, by simp⟩

/-- `expandUntil` on a run that never wraps (`2 * target * width ≤ 2 ^ 64`):
the fixed fuel 65 always suffices, since `target ≤ 2 ^ 63 ≤ cap * 2 ^ 65`. -/
theorem expandUntil_spec {α : Type} (vf : VecFile α) (target : Nat)
    (hcap : 0 < vf.cap) (hw : 1 ≤ vf.width) (hbw : 2 * target * vf.width ≤ 2 ^ 64) :
    (vf.expandUntil target).len = vf.len
    ∧ vf.cap ≤ (vf.expandUntil target).cap
    ∧ target ≤ (vf.expandUntil target).cap
    ∧ ∃ j, (vf.expandUntil target).cap = vf.cap * 2 ^ j := by
  have h2t : 2 * target ≤ 2 ^ 64 := by
    have h0 : 2 * target * 1 ≤ 2 * target * vf.width := Nat.mul_le_mul_left _ hw
    omega
  have hfuel : target ≤ vf.cap * 2 ^ 65 := by
    have h1 : 1 * 2 ^ 65 ≤ vf.cap * 2 ^ 65 := Nat.mul_le_mul_right _ hcap
    have h2 : (1 : Nat) * 2 ^ 65 = 2 ^ 65 := one_mul _
    omega
  exact expandUntilAux_spec 65 vf target hfuel hcap hw hbw

/-- The fill loop of `resize` (with fuel): final `len` is
`max len new_len`; capacity, width untouched. -/
theorem resizeFill_spec {α : Type} :
    ∀ (n : Nat) (vf : VecFile α) (new_len : Nat) (v : α),
    new_len - vf.len ≤ n →
    (vf.resizeFill new_len v).len = max vf.len new_len
    ∧ (vf.resizeFill new_len v).cap = vf.cap := by
  intro n
  induction n with
  | zero =>
    intro vf new_len v hfuel
    rw [VecFile.resizeFill.eq_def, if_neg (by omega)]
    exact ⟨by omega, rfl⟩
  | succ n ih =>
    intro vf new_len v hfuel
    by_cases hlt : vf.len < new_len
    · rw [VecFile.resizeFill.eq_def, if_pos hlt]
      obtain ⟨h1, h2⟩ := ih { vf.write_at_curr_seek v with len := vf.len + 1 } new_len v
        (by show new_len - (vf.len + 1) ≤ n; omega)
      refine ⟨?_, h2⟩
      rw [h1]
      show max (vf.len + 1) new_len = max vf.len new_len
      omega
    · rw [VecFile.resizeFill.eq_def, if_neg hlt]
      exact ⟨by omega, rfl⟩

/-- The fill loop of `resize_with` (with fuel): same shape as `resizeFill`. -/
theorem resizeFillWith_spec {α : Type} :
    ∀ (n : Nat) (vf : VecFile α) (new_len : Nat) (g : Nat → α) (c : Nat),
    new_len - vf.len ≤ n →
    (vf.resizeFillWith new_len g c).len = max vf.len new_len
    ∧ (vf.resizeFillWith new_len g c).cap = vf.cap := by
  intro n
  induction n with
  | zero =>
    intro vf new_len g c hfuel
    rw [VecFile.resizeFillWith.eq_def, if_neg (by omega)]
    exact ⟨by omega, rfl⟩
  | succ n ih =>
    intro vf new_len g c hfuel
    by_cases hlt : vf.len < new_len
    · rw [VecFile.resizeFillWith.eq_def, if_pos hlt]
      obtain ⟨h1, h2⟩ := ih { vf.write_at_curr_seek (g c) with len := vf.len + 1 } new_len g
        (c + 1) (by show new_len - (vf.len + 1) ≤ n; omega)
      refine ⟨?_, h2⟩
      rw [h1]
      show max (vf.len + 1) new_len = max vf.len new_len
      omega
    · rw [VecFile.resizeFillWith.eq_def, if_neg hlt]
      exact ⟨by omega, rfl⟩

theorem try_pop_len_cap {α : Type} (vf : VecFile α) :
    (vf.try_pop.2.len = vf.len ∨ vf.try_pop.2.len = vf.len - 1)
    ∧ vf.try_pop.2.cap = vf.cap := by
  unfold VecFile.try_pop
  split
  · split
    · exact ⟨Or.inl rfl, rfl⟩
    · exact ⟨Or.inr rfl, rfl⟩
  · exact ⟨Or.inl rfl, rfl⟩

theorem try_push_len_cap {α : Type} (vf : VecFile α) (v : α)
    (hlen1 : vf.len + 1 < 2 ^ 64) :
    ((vf.try_push v).2 = vf)
    ∨ ((vf.try_push v).2.len = vf.len + 1
        ∧ (vf.try_push v).2.cap = vf.expand_if_needed.cap) := by
  unfold VecFile.try_push
  split
  · right
    constructor
    · show wrap ((vf.expand_if_needed.write_at_curr_seek v).len + 1) = vf.len + 1
      rw [write_at_curr_seek_len, expand_if_needed_len, wrap_eq hlen1]
    · rfl
  · left
    rfl

theorem try_insert_len_cap {α : Type} (vf : VecFile α) (i : Nat) (v : α)
    (hlen1 : vf.len + 1 < 2 ^ 64) :
    ((vf.try_insert i v).2 = vf)
    ∨ ((vf.try_insert i v).2.len = vf.len + 1
        ∧ (vf.try_insert i v).2.cap = vf.expand_if_needed.cap) := by
  have hwl : wrap (vf.expand_if_needed.len + 1) = vf.len + 1 := by
    rw [expand_if_needed_len]
    exact wrap_eq hlen1
  unfold VecFile.try_insert
  split
  · left
    rfl
  · right
    have hloop := shiftRightLoop_len_cap
      (revRange i (wrap (vf.expand_if_needed.len + 1)))
      (vf.expand_if_needed.withLen (wrap (vf.expand_if_needed.len + 1)))
    rcases hl : (vf.expand_if_needed.withLen
        (wrap (vf.expand_if_needed.len + 1))).shiftRightLoop
        (revRange i (wrap (vf.expand_if_needed.len + 1))) with ⟨r, vf3⟩
    rw [hl] at hloop
    cases r with
    | error e =>
      exact ⟨hloop.1.trans hwl, hloop.2⟩
    | ok u =>
      have hs := try_set_len_cap vf3 i v
      exact ⟨hs.1.trans (hloop.1.trans hwl), hs.2.trans hloop.2⟩

theorem try_remove_len_cap {α : Type} (vf : VecFile α) (i : Nat) :
    (vf.try_remove i).2.len ≤ vf.len ∧ (vf.try_remove i).2.cap = vf.cap := by
  unfold VecFile.try_remove
  split
  · exact ⟨le_refl _, rfl⟩
  · have hg := try_get_len_cap vf i
    rcases hgr : vf.try_get i with ⟨r, vf1⟩
    rw [hgr] at hg
    cases r with
    | error e => exact ⟨le_of_eq hg.1, hg.2⟩
    | ok ret =>
      have hloop := shiftLeftLoop_len_cap (List.range' i (vf1.len - 1 - i)) vf1
      rcases hlr : vf1.shiftLeftLoop (List.range' i (vf1.len - 1 - i)) with ⟨r2, vf2⟩
      rw [hlr] at hloop
      cases r2 with
      | error e =>
        simp only [hlr]
        exact ⟨le_of_eq (hloop.1.trans hg.1), hloop.2.trans hg.2⟩
      | ok u =>
        simp only [hlr]
        refine ⟨?_, hloop.2.trans hg.2⟩
        show vf2.len - 1 ≤ vf.len
        rw [hloop.1, hg.1]
        omega

theorem resize_len_cap {α : Type} (vf : VecFile α) (n : Nat) (v : α) (h : Inv vf)
    (hw : 1 ≤ vf.width) (hb : n * vf.width ≤ 2 ^ 63) :
    (vf.resize n v).2.len = n ∧ Inv (vf.resize n v).2 ∧ vf.cap ≤ (vf.resize n v).2.cap := by
  obtain ⟨hlc, k, hk⟩ := h
  have hcap : 0 < vf.cap := by rw [hk]; positivity
  have hbw : 2 * n * vf.width ≤ 2 ^ 64 := by
    have h3 : 2 * n * vf.width = 2 * (n * vf.width) := by ring
    omega
  have hsnd : (vf.resize n v).2 =
      { (if n > vf.len then (vf.expandUntil n).resizeFill n v else vf) with len := n } := rfl
  rw [hsnd]
  by_cases hgt : n > vf.len
  · rw [if_pos hgt]
    obtain ⟨he1, he2, he3, j, he4⟩ := expandUntil_spec vf n hcap hw hbw
    obtain ⟨hf1, hf2⟩ := resizeFill_spec n (vf.expandUntil n) n v (by omega)
    refine ⟨rfl, ⟨?_, k + j, ?_⟩, ?_⟩
    · show n ≤ ((vf.expandUntil n).resizeFill n v).cap
      rw [hf2]
      omega
    · show ((vf.expandUntil n).resizeFill n v).cap = 8 * 2 ^ (k + j)
      rw [hf2, he4, hk, pow_add]
      ring
    · show vf.cap ≤ ((vf.expandUntil n).resizeFill n v).cap
      rw [hf2]
      omega
  · rw [if_neg hgt]
    exact ⟨rfl, ⟨by show n ≤ vf.cap; omega, k, hk⟩, le_refl _⟩

theorem resize_with_len_cap {α : Type} (vf : VecFile α) (n : Nat) (g : Nat → α) (h : Inv vf)
    (hw : 1 ≤ vf.width) (hb : n * vf.width ≤ 2 ^ 63) :
    (vf.resize_with n g).2.len = n ∧ Inv (vf.resize_with n g).2
    ∧ vf.cap ≤ (vf.resize_with n g).2.cap := by
  obtain ⟨hlc, k, hk⟩ := h
  have hcap : 0 < vf.cap := by rw [hk]; positivity
  have hbw : 2 * n * vf.width ≤ 2 ^ 64 := by
    have h3 : 2 * n * vf.width = 2 * (n * vf.width) := by ring
    omega
  have hsnd : (vf.resize_with n g).2 =
      { (if n > vf.len then (vf.expandUntil n).resizeFillWith n g 0 else vf) with len := n } := rfl
  rw [hsnd]
  by_cases hgt : n > vf.len
  · rw [if_pos hgt]
    obtain ⟨he1, he2, he3, j, he4⟩ := expandUntil_spec vf n hcap hw hbw
    obtain ⟨hf1, hf2⟩ := resizeFillWith_spec n (vf.expandUntil n) n g 0 (by omega)
    refine ⟨rfl, ⟨?_, k + j, ?_⟩, ?_⟩
    · show n ≤ ((vf.expandUntil n).resizeFillWith n g 0).cap
      rw [hf2]
      omega
    · show ((vf.expandUntil n).resizeFillWith n g 0).cap = 8 * 2 ^ (k + j)
      rw [hf2, he4, hk, pow_add]
      ring
    · show vf.cap ≤ ((vf.expandUntil n).resizeFillWith n g 0).cap
      rw [hf2]
      omega
  · rw [if_neg hgt]
    exact ⟨rfl, ⟨by show n ≤ vf.cap; omega, k, hk⟩, le_refl _⟩

theorem reserve_len_cap {α : Type} (vf : VecFile α) (n : Nat) (hcap : 0 < vf.cap)
    (hw : 1 ≤ vf.width) (hb : (vf.len + n) * vf.width ≤ 2 ^ 63) :
    (vf.reserve n).2.len = vf.len ∧ vf.cap ≤ (vf.reserve n).2.cap
    ∧ vf.len + n ≤ (vf.reserve n).2.cap
    ∧ ∃ j, (vf.reserve n).2.cap = vf.cap * 2 ^ j := by
  have hln : vf.len + n < 2 ^ 64 := by
    have h1 : (vf.len + n) * 1 ≤ (vf.len + n) * vf.width := Nat.mul_le_mul_left _ hw
    omega
  have hbw : 2 * (vf.len + n) * vf.width ≤ 2 ^ 64 := by
    have h3 : 2 * (vf.len + n) * vf.width = 2 * ((vf.len + n) * vf.width) := by ring
    omega
  have hred : (vf.reserve n).2 = vf.expandUntil (vf.len + n) := by
    show vf.expandUntil (wrap (vf.len + n)) = vf.expandUntil (vf.len + n)
    rw [wrap_eq hln]
  rw [hred]
  exact expandUntil_spec vf (vf.len + n) hcap hw hbw

theorem try_extend_len_cap {α : Type} (vf : VecFile α) (slice : List α) (hcap : 0 < vf.cap)
    (hw : 1 ≤ vf.width) (hb : (vf.len + slice.length) * vf.width ≤ 2 ^ 63) :
    ((vf.try_extend_from_slice slice).2 = vf)
    ∨ ((vf.try_extend_from_slice slice).2.len = vf.len + slice.length
       ∧ vf.len + slice.length ≤ (vf.try_extend_from_slice slice).2.cap
       ∧ vf.cap ≤ (vf.try_extend_from_slice slice).2.cap
       ∧ ∃ j, (vf.try_extend_from_slice slice).2.cap = vf.cap * 2 ^ j) := by
  have hln : vf.len + slice.length < 2 ^ 64 := by
    have h1 : (vf.len + slice.length) * 1 ≤ (vf.len + slice.length) * vf.width :=
      Nat.mul_le_mul_left _ hw
    omega
  unfold VecFile.try_extend_from_slice
  split
  · left
    rfl
  · right
    obtain ⟨hr1, hr2, hr3, j, hr4⟩ := reserve_len_cap vf slice.length hcap hw hb
    have hwl : wrap ((vf.reserve slice.length).2.len + slice.length)
        = vf.len + slice.length := by
      rw [hr1]
      exact wrap_eq hln
    have hwA := writeAll_len_cap slice
      { (vf.reserve slice.length).2 with
        len := wrap ((vf.reserve slice.length).2.len + slice.length) }
    refine ⟨?_, ?_, ?_, j, ?_⟩
    · exact hwA.1.trans hwl
    · rw [hwA.2]
      show vf.len + slice.length ≤ (vf.reserve slice.length).2.cap
      exact hr3
    · rw [hwA.2]
      exact hr2
    · rw [hwA.2]
      exact hr4

theorem add_shadows_len_cap {α : Type} :
    ∀ (n : Nat) (vf : VecFile α),
    (vf.add_shadows n).2.len = vf.len ∧ (vf.add_shadows n).2.cap = vf.cap := by
  intro n
  induction n with
  | zero => intro vf; exact ⟨rfl, rfl⟩
  | succ m ih =>
    intro vf
    unfold VecFile.add_shadows
    split
    · exact ⟨rfl, rfl⟩
    · exact ih _

/-- The per-operation no-overflow side conditions: an operation is `StepOk`
on a state when none of the u64 additions and multiplications it performs
(`cap * 2` and `cap * 2 * width` in `expand`, `len + 1` in `try_push` /
`try_insert`, `len + additional` in `reserve`, `len + slice.len()` in
`try_extend_from_slice`, and the doublings those trigger) wraps. -/
def StepOk {α : Type} (vf : VecFile α) (op : Op α) : Prop :=
  match op with
  | .push _ => 1 ≤ vf.width ∧ 2 * vf.cap * vf.width < 2 ^ 64 ∧ vf.len + 1 < 2 ^ 64
  | .insert _ _ => 1 ≤ vf.width ∧ 2 * vf.cap * vf.width < 2 ^ 64 ∧ vf.len + 1 < 2 ^ 64
  | .resize n _ => 1 ≤ vf.width ∧ n * vf.width ≤ 2 ^ 63
  | .resizeWith n _ => 1 ≤ vf.width ∧ n * vf.width ≤ 2 ^ 63
  | .reserve n => 1 ≤ vf.width ∧ (vf.len + n) * vf.width ≤ 2 ^ 63
  | .extendFromSlice l => 1 ≤ vf.width ∧ (vf.len + l.length) * vf.width ≤ 2 ^ 63
  | _ => True

/-- One public operation whose u64 arithmetic does not wrap preserves the
capacity invariant, and the capacity never decreases. -/
theorem step_inv {α : Type} (vf : VecFile α) (op : Op α) (h : Inv vf)
    (hok : StepOk vf op) :
    Inv (step vf op) ∧ vf.cap ≤ (step vf op).cap := by
  obtain ⟨hlc, k, hk⟩ := h
  have hcap : 0 < vf.cap := by rw [hk]; positivity
  cases op with
  | get i =>
    simp only [step]
    obtain ⟨h1, h2⟩ := try_get_len_cap vf i
    exact ⟨⟨by omega, k, by rw [h2, hk]⟩, by omega⟩
  | set i v =>
    simp only [step]
    obtain ⟨h1, h2⟩ := try_set_len_cap vf i v
    exact ⟨⟨by omega, k, by rw [h2, hk]⟩, by omega⟩
  | push v =>
    obtain ⟨hw, hcw, hl1⟩ :=
      (hok : 1 ≤ vf.width ∧ 2 * vf.cap * vf.width < 2 ^ 64 ∧ vf.len + 1 < 2 ^ 64)
    have hc2 : vf.cap * 2 < 2 ^ 64 := by
      have h0 : 2 * vf.cap * 1 ≤ 2 * vf.cap * vf.width := Nat.mul_le_mul_left _ hw
      omega
    simp only [step]
    rcases try_push_len_cap vf v hl1 with he | ⟨h1, h2⟩
    · rw [he]
      exact ⟨⟨hlc, k, hk⟩, le_refl _⟩
    · rw [expand_if_needed_cap] at h2
      by_cases hfull : vf.len = vf.cap
      · rw [if_pos hfull, wrap_eq hc2] at h2
        exact ⟨⟨by omega, k + 1, by rw [h2, hk, pow_succ]; ring⟩, by omega⟩
      · rw [if_neg hfull] at h2
        exact ⟨⟨by omega, k, by rw [h2, hk]⟩, by omega⟩
  | pop =>
    simp only [step]
    obtain ⟨h1, h2⟩ := try_pop_len_cap vf
    rcases h1 with h1 | h1 <;> exact ⟨⟨by omega, k, by rw [h2, hk]⟩, by omega⟩
  | insert i v =>
    obtain ⟨hw, hcw, hl1⟩ :=
      (hok : 1 ≤ vf.width ∧ 2 * vf.cap * vf.width < 2 ^ 64 ∧ vf.len + 1 < 2 ^ 64)
    have hc2 : vf.cap * 2 < 2 ^ 64 := by
      have h0 : 2 * vf.cap * 1 ≤ 2 * vf.cap * vf.width := Nat.mul_le_mul_left _ hw
      omega
    simp only [step]
    rcases try_insert_len_cap vf i v hl1 with he | ⟨h1, h2⟩
    · rw [he]
      exact ⟨⟨hlc, k, hk⟩, le_refl _⟩
    · rw [expand_if_needed_cap] at h2
      by_cases hfull : vf.len = vf.cap
      · rw [if_pos hfull, wrap_eq hc2] at h2
        exact ⟨⟨by omega, k + 1, by rw [h2, hk, pow_succ]; ring⟩, by omega⟩
      · rw [if_neg hfull] at h2
        exact ⟨⟨by omega, k, by rw [h2, hk]⟩, by omega⟩
  | remove i =>
    simp only [step]
    obtain ⟨h1, h2⟩ := try_remove_len_cap vf i
    exact ⟨⟨by omega, k, by rw [h2, hk]⟩, by omega⟩
  | resize n v =>
    obtain ⟨hw, hb⟩ := (hok : 1 ≤ vf.width ∧ n * vf.width ≤ 2 ^ 63)
    simp only [step]
    obtain ⟨h1, hI, h2⟩ := resize_len_cap vf n v ⟨hlc, k, hk⟩ hw hb
    exact ⟨hI, h2⟩
  | resizeWith n g =>
    obtain ⟨hw, hb⟩ := (hok : 1 ≤ vf.width ∧ n * vf.width ≤ 2 ^ 63)
    simp only [step]
    obtain ⟨h1, hI, h2⟩ := resize_with_len_cap vf n g ⟨hlc, k, hk⟩ hw hb
    exact ⟨hI, h2⟩
  | reserve n =>
    obtain ⟨hw, hb⟩ := (hok : 1 ≤ vf.width ∧ (vf.len + n) * vf.width ≤ 2 ^ 63)
    simp only [step]
    obtain ⟨h1, h2, h3, j, h4⟩ := reserve_len_cap vf n hcap hw hb
    exact ⟨⟨by omega, k + j, by rw [h4, hk, pow_add]; ring⟩, h2⟩
  | extendFromSlice l =>
    obtain ⟨hw, hb⟩ := (hok : 1 ≤ vf.width ∧ (vf.len + l.length) * vf.width ≤ 2 ^ 63)
    simp only [step]
    rcases try_extend_len_cap vf l hcap hw hb with he | ⟨h1, h2, h3, j, h4⟩
    · rw [he]
      exact ⟨⟨hlc, k, hk⟩, le_refl _⟩
    · exact ⟨⟨by omega, k + j, by rw [h4, hk, pow_add]; ring⟩, h3⟩
  | truncate n =>
    simp only [step]
    unfold VecFile.truncate
    split
    · refine ⟨⟨?_, k, hk⟩, le_refl _⟩
      show n ≤ vf.cap
      omega
    · exact ⟨⟨hlc, k, hk⟩, le_refl _⟩
  | addShadows n =>
    simp only [step]
    obtain ⟨h1, h2⟩ := add_shadows_len_cap n vf
    exact ⟨⟨by omega, k, by rw [h2, hk]⟩, by omega⟩
  | removeShadows n =>
    simp only [step]
    exact ⟨⟨hlc, k, hk⟩, le_refl _⟩
  | clearShadows =>
    simp only [step]
    exact ⟨⟨hlc, k, hk⟩, le_refl _⟩

theorem runOps_append {α : Type} (u : VecFile α) (a b : List (Op α)) :
    runOps u (a ++ b) = runOps (runOps u a) b := by
  unfold runOps
  rw [List.foldl_append]

/-- **C6** (amended): from any instance built by a checked constructor
(`new`, `default`, `new_with_path` — all modelled by `mkNew`), after any
sequence of public operations in which no operation's u64 arithmetic wraps
(every step is `StepOk` on the state it runs from), `len ≤ cap` holds and
`cap` is `8 * 2^k` for some `k ≥ 0`; moreover along such a sequence the
capacity never decreases: every prefix's capacity is at most the final
capacity. -/
theorem c6_capacity_invariant (α : Type) (w : Nat) (z : α) (ops : List (Op α))
    (hsafe : ∀ pre op post, ops = pre ++ op :: post →
      StepOk (runOps (VecFile.mkNew w z) pre) op) :
    ((runOps (VecFile.mkNew w z) ops).len ≤ (runOps (VecFile.mkNew w z) ops).cap
      ∧ ∃ k, (runOps (VecFile.mkNew w z) ops).cap = 8 * 2 ^ k)
    ∧ ∀ pre post, ops = pre ++ post →
        (runOps (VecFile.mkNew w z) pre).cap ≤ (runOps (VecFile.mkNew w z) ops).cap := by
  have hmain : ∀ (l : List (Op α)) (u : VecFile α), Inv u →
      (∀ pre op post, l = pre ++ op :: post → StepOk (runOps u pre) op) →
      Inv (runOps u l) ∧ u.cap ≤ (runOps u l).cap := by
    intro l
    induction l with
    | nil => intro u hu _; exact ⟨hu, le_refl _⟩
    | cons op rest ih =>
      intro u hu hs
      have hok : StepOk u op := hs [] op rest rfl
      obtain ⟨h1, h2⟩ := step_inv u op hu hok
      have hs2 : ∀ pre op2 post, rest = pre ++ op2 :: post →
          StepOk (runOps (step u op) pre) op2 := by
        intro pre op2 post hEq
        exact hs (op :: pre) op2 post (by rw [hEq]; rfl)
      obtain ⟨h3, h4⟩ := ih (step u op) h1 hs2
      exact ⟨h3, le_trans h2 h4⟩
  have hbase : Inv (VecFile.mkNew w z : VecFile α) := ⟨Nat.zero_le _, 0, rfl⟩
  obtain ⟨hI, _⟩ := hmain ops (VecFile.mkNew w z) hbase hsafe
  refine ⟨⟨hI.1, hI.2⟩, ?_⟩
  intro pre post hEq
  have hsafePre : ∀ p2 op p3, pre = p2 ++ op :: p3 →
      StepOk (runOps (VecFile.mkNew w z) p2) op := by
    intro p2 op p3 h2
    exact hsafe p2 op (p3 ++ post) (by rw [hEq, h2]; simp)
  obtain ⟨hIpre, _⟩ := hmain pre (VecFile.mkNew w z) hbase hsafePre
  have hsafePost : ∀ p2 op p3, post = p2 ++ op :: p3 →
      StepOk (runOps (runOps (VecFile.mkNew w z) pre) p2) op := by
    intro p2 op p3 h2
    have h3 := hsafe (pre ++ p2) op p3 (by rw [hEq, h2]; simp)
    rwa [runOps_append] at h3
  have hmono := (hmain post (runOps (VecFile.mkNew w z) pre) hIpre hsafePost).2
  rw [hEq, runOps_append]
  exact hmono

theorem c6_capacity_invariant_witness :
    (∀ pre op post, ([Op.pop] : List (Op Nat)) = pre ++ op :: post →
        StepOk (runOps (VecFile.mkNew 1 (0 : Nat)) pre) op)
    ∧ (((runOps (VecFile.mkNew 1 (0 : Nat)) [Op.pop]).len
          ≤ (runOps (VecFile.mkNew 1 (0 : Nat)) [Op.pop]).cap
        ∧ ∃ k, (runOps (VecFile.mkNew 1 (0 : Nat)) [Op.pop]).cap = 8 * 2 ^ k)
      ∧ ∀ pre post, ([Op.pop] : List (Op Nat)) = pre ++ post →
          (runOps (VecFile.mkNew 1 (0 : Nat)) pre).cap
            ≤ (runOps (VecFile.mkNew 1 (0 : Nat)) [Op.pop]).cap) := by
  have hsafe : ∀ pre op post, ([Op.pop] : List (Op Nat)) = pre ++ op :: post →
      StepOk (runOps (VecFile.mkNew 1 (0 : Nat)) pre) op := by
    intro pre op post hEq
    cases pre with
    | nil =>
      injection hEq with h1 h2
      cases h1
      exact trivial
    | cons a as =>
      injection hEq with h1 h2
      exact absurd (List.append_eq_nil.mp h2.symm).2 (List.cons_ne_nil _ _)
  exact ⟨hsafe, c6_capacity_invariant Nat 1 0 [Op.pop] hsafe⟩

/-- The pure-`Nat` mirror of the doubling loop's effect on `cap` alone. -/
def capIter : Nat → Nat → Nat → Nat
  | 0, c, _ => c
  | n + 1, c, target => if c < target ∧ 0 < c then capIter n (wrap (c * 2)) target else c

theorem expandUntilAux_cap {α : Type} :
    ∀ (n : Nat) (vf : VecFile α) (target : Nat),
    (VecFile.expandUntilAux n vf target).cap = capIter n vf.cap target := by
  intro n
  induction n with
  | zero => intro vf target; rfl
  | succ n ih =>
    intro vf target
    show (if vf.cap < target ∧ 0 < vf.cap then VecFile.expandUntilAux n vf.expand target
        else vf).cap
      = if vf.cap < target ∧ 0 < vf.cap then capIter n (wrap (vf.cap * 2)) target
        else vf.cap
    by_cases h : vf.cap < target ∧ 0 < vf.cap
    · rw [if_pos h, if_pos h, ih]
      rfl
    · rw [if_neg h, if_neg h]

/-- Counterexample to C6 as stated: from a fresh instance (`cap = 8`,
width 1), the single public call `resize(2^63 + 1, 0)` drives the doubling
loop until `cap` wraps (`2^63 * 2 ≡ 0 [MOD 2^64]`), ending with `cap = 0`:
not of the form `8 * 2^k`, strictly below the starting capacity 8 (and below
the final `len`), so the invariant and the cap-monotonicity both fail.  At
the wrap the source also calls `set_len(0)`, truncating the backing file. -/
theorem resize_cap_gt {α : Type} (vf : VecFile α) (n : Nat) (v : α) (h : n > vf.len) :
    (vf.resize n v).2.cap = (vf.expandUntil n).cap := by
  have h2 : (vf.resize n v).2
      = { (if n > vf.len then (vf.expandUntil n).resizeFill n v else vf) with len := n } := rfl
  rw [h2, if_pos h]
  exact (resizeFill_spec n (vf.expandUntil n) n v (Nat.sub_le _ _)).2

theorem c6_capacity_counterexample :
    (runOps (VecFile.mkNew 1 (0 : Nat)) [Op.resize (2 ^ 63 + 1) 0]).cap = 0
    ∧ (¬ ∃ k, (runOps (VecFile.mkNew 1 (0 : Nat)) [Op.resize (2 ^ 63 + 1) 0]).cap
        = 8 * 2 ^ k)
    ∧ ¬ ((runOps (VecFile.mkNew 1 (0 : Nat)) ([] : List (Op Nat))).cap
        ≤ (runOps (VecFile.mkNew 1 (0 : Nat)) [Op.resize (2 ^ 63 + 1) 0]).cap) := by
  have hr : runOps (VecFile.mkNew 1 (0 : Nat)) [Op.resize (2 ^ 63 + 1) 0]
      = ((VecFile.mkNew 1 (0 : Nat)).resize (2 ^ 63 + 1) 0).2 := rfl
  have he : ((VecFile.mkNew 1 (0 : Nat)).expandUntil (2 ^ 63 + 1)).cap
      = capIter 65 (VecFile.mkNew 1 (0 : Nat)).cap (2 ^ 63 + 1) :=
    expandUntilAux_cap 65 (VecFile.mkNew 1 (0 : Nat)) (2 ^ 63 + 1)
  have hcap0 : (runOps (VecFile.mkNew 1 (0 : Nat)) [Op.resize (2 ^ 63 + 1) 0]).cap = 0 := by
    rw [hr, resize_cap_gt (VecFile.mkNew 1 (0 : Nat)) (2 ^ 63 + 1) 0 (by decide), he]
    decide
  refine ⟨hcap0, ?_, ?_⟩
  · rintro ⟨k, hk⟩
    rw [hcap0] at hk
    have hpos : 0 < 8 * 2 ^ k := by positivity
    omega
  · rw [hcap0]
    decide

end Vecfile
